import Mathlib

/-!
Verification of the budget-constrained appliance-balancing core of the
Model repository (lastestProduct/appliance_balancer.py,
lastestProduct/bill_calculator.py, application/bill_calculator.py and
finalProduct/data_processor.py), as a shallow embedding over exact
rationals.  Python floats are idealised as `ℚ`; appliance dictionaries
become records; NumPy arrays become `List ℚ`; the adjustment dictionary
becomes an insertion-ordered association list keyed by the original
appliance index, with the display strings abstracted to the numbers they
are formatted from.
-/

namespace Model

/-! ### List helpers

Total accessors mirroring Python indexing on the lists we thread through
the balancing pass.  `getL`/`setL` follow `List.getD`/`List.set`
semantics (out-of-range reads give the default, out-of-range writes are
dropped); `sumQ` is `sum` on rational lists.  They are recursive
definitions of our own so that concrete runs evaluate by `simp`. -/

def getL {α : Type} [Inhabited α] : List α → ℕ → α
  | [], _ => default
  | x :: _, 0 => x
  | _ :: xs, n + 1 => getL xs n

def setL {α : Type} : List α → ℕ → α → List α
  | [], _, _ => []
  | _ :: xs, 0, v => v :: xs
  | x :: xs, n + 1, v => x :: setL xs n v

def sumQ : List ℚ → ℚ
  | [] => 0
  | x :: xs => x + sumQ xs

instance : Inhabited ℚ := ⟨0⟩

/-! ### Data model

An appliance dictionary, restricted to the fields the balancing code
reads or writes: `Device Type`, `Power Consumption (W)` and
`Usage Duration (minutes)`.  Only `usage` is ever mutated. -/

structure Appliance where
  deviceType : String
  powerW : ℚ
  usage : ℚ
deriving DecidableEq

instance : Inhabited Appliance := ⟨⟨"", 0, 0⟩⟩

/-- One entry of the `adjustments` dictionary.  The source stores a
formatted string; we keep the numbers the string is formatted from.
`kind` tags the message shape: 0 for the Phase-B "Adjusted usage" text,
1 for the Phase-A "Set maximum usage" text, 2 for the
`adjust_usage_for_threshold` "Maximum allowed usage time" text. -/
structure AdjRec where
  kind : ℕ
  newUsageHours : ℚ
  reductionPercent : ℚ
  originalUsageHours : ℚ
deriving DecidableEq

/-- Mutable state threaded through a balancing pass: the appliance list
(`appliances` and `adjusted_appliances` alias the same dictionaries, so a
single list), the `daily_costs` array, and the `adjustments` dict. -/
structure BState where
  apps : List Appliance
  dc : List ℚ
  adj : List (ℕ × AdjRec)
deriving DecidableEq

def usageAt (apps : List Appliance) (i : ℕ) : ℚ := (getL apps i).usage

def setUsage (apps : List Appliance) (i : ℕ) (v : ℚ) : List Appliance :=
  setL apps i { getL apps i with usage := v }

def dcAt (dc : List ℚ) (i : ℕ) : ℚ := getL dc i

/-- Python dict assignment `adjustments[k] = v`: replaces the existing
entry if the key is present, otherwise appends (insertion order). -/
def upsert (m : List (ℕ × AdjRec)) (k : ℕ) (v : AdjRec) : List (ℕ × AdjRec) :=
  if m.any (fun q => q.1 == k) then
    m.map (fun q => if q.1 == k then (k, v) else q)
  else m ++ [(k, v)]

def lookupAdj (m : List (ℕ × AdjRec)) (k : ℕ) : Option AdjRec :=
  (m.find? (fun q => q.1 == k)).map Prod.snd

/-! ### lastestProduct/bill_calculator.py -/

/-- BillCalculator.calculate_monthly_bill (lines 36-53):
`monthly_costs = (daily_costs * 30) / 10`, total is their sum. -/
def calculate_monthly_bill (dc : List ℚ) : ℚ × List ℚ :=
  (sumQ (dc.map (fun d => d * 30 / 10)), dc.map (fun d => d * 30 / 10))

/-- application/bill_calculator.py calculate_monthly_bill (lines 25-40):
sums the daily costs and returns them with an always-empty adjustments
list; despite the docstring, no factor of 30 is applied. -/
def calculate_monthly_bill_app (dc : List ℚ) : ℚ × List ℚ :=
  (sumQ dc, [])

/-- Total `np.sum(daily_costs * 30)` used at lines 126 and 204 of
appliance_balancer.py. -/
def totalBill30 (dc : List ℚ) : ℚ := sumQ (dc.map (fun d => d * 30))

/-! ### Classification (appliance_balancer.py lines 47-65) -/

def excludedTypes : List String := ["Refrigerator", "Washing Machine", "Smart Plug"]

def balancingTypes : List String := ["Heater", "TV", "Ceiling Fan", "Air Conditioner", "Microwave"]

def isExcluded (a : Appliance) : Bool := excludedTypes.contains a.deviceType

def isBalancing (a : Appliance) : Bool := balancingTypes.contains a.deviceType

/-- Pairs `(idx, orig_idx)` from `enumerate(valid_indices)` whose device
type is Refrigerator, Washing Machine or Smart Plug. -/
def excListOf (apps : List Appliance) (valid : List ℕ) : List (ℕ × ℕ) :=
  valid.enum.filter (fun p => isExcluded (getL apps p.2))

/-- Pairs routed to the balancing list (the elif branch: not excluded and
of a balanceable type). -/
def balListOf (apps : List Appliance) (valid : List ℕ) : List (ℕ × ℕ) :=
  valid.enum.filter (fun p => !isExcluded (getL apps p.2) && isBalancing (getL apps p.2))

/-- Pairs routed to the "others" list (neither excluded nor balanceable). -/
def othListOf (apps : List Appliance) (valid : List ℕ) : List (ℕ × ℕ) :=
  valid.enum.filter (fun p => !isExcluded (getL apps p.2) && !isBalancing (getL apps p.2))

/-! ### Phase A: maximum usage for "others" (lines 80-123) -/

/-- cost_per_minute_others entry for pair `p`, computed from the state at
the start of Step 2 (lines 81-88). -/
def cpmOthersAt (apps : List Appliance) (dc : List ℚ) (p : ℕ × ℕ) : ℚ :=
  if 0 < usageAt apps p.2 then dcAt dc p.1 / usageAt apps p.2 else 0

/-- total_cost_per_minute_others: sum of the positive entries (lines 91-93). -/
def tcpmOthers (apps : List Appliance) (dc : List ℚ) (valid : List ℕ) : ℚ :=
  sumQ (((othListOf apps valid).filter
    (fun p => decide (0 < cpmOthersAt apps dc p))).map (cpmOthersAt apps dc))

/-- Loop body of lines 94-123 for one `(idx, orig_idx)` pair.  `cpmO` and
`tO` are the dictionary and the total computed before the loop; `nbb` is
`non_balancing_budget = max_monthly_bill * 0.2`. -/
def phaseAStep (cpmO : ℕ × ℕ → ℚ) (tO nbb : ℚ) (s : BState) (p : ℕ × ℕ) : BState :=
  if usageAt s.apps p.2 ≤ 0 then s
  else if cpmO p ≤ 0 then s
  else if min (usageAt s.apps p.2) (cpmO p / tO * (nbb / 30) / cpmO p) < usageAt s.apps p.2 then
    { apps := setUsage s.apps p.2 (min (usageAt s.apps p.2) (cpmO p / tO * (nbb / 30) / cpmO p)),
      dc := setL s.dc p.1 (dcAt s.dc p.1 *
        (min (usageAt s.apps p.2) (cpmO p / tO * (nbb / 30) / cpmO p) / usageAt s.apps p.2)),
      adj := upsert s.adj p.2
        ⟨1, min (usageAt s.apps p.2) (cpmO p / tO * (nbb / 30) / cpmO p) / 60,
          (usageAt s.apps p.2 - min (usageAt s.apps p.2) (cpmO p / tO * (nbb / 30) / cpmO p)) /
            usageAt s.apps p.2 * 100,
          usageAt s.apps p.2 / 60⟩ }
  else s

/-! ### Phase B: iterative balancing (lines 136-204) -/

/-- cost_per_minute entry for a balancing pair, computed once at lines
137-144 from the state after Phase A. -/
def cpmBalAt (apps : List Appliance) (dc : List ℚ) (p : ℕ × ℕ) : ℚ :=
  if 0 < usageAt apps p.2 then dcAt dc p.1 / usageAt apps p.2 else 0

/-- total_cost_per_minute (lines 152-157): sums the cached
cost-per-minute of balancing pairs whose current usage is positive. -/
def totalCpm (bal : List (ℕ × ℕ)) (cpm : ℕ × ℕ → ℚ) (apps : List Appliance) : ℚ :=
  sumQ ((bal.filter (fun p => decide (0 < usageAt apps p.2))).map cpm)

/-- Inner loop body of lines 165-201 for one balancing pair.  `e` is the
excess cost and `t` the total cost per minute of the current iteration.
The read of `appliances[orig_idx]` at line 168 goes through the same
dictionary as `adjusted_appliances[orig_idx]` (the copy at line 35 is
shallow), so `original_usage_minutes` is the current usage. -/
def phaseBInner (e t : ℚ) (cpm : ℕ × ℕ → ℚ) (s : BState) (p : ℕ × ℕ) : BState :=
  if usageAt s.apps p.2 ≤ 0 then s
  else if cpm p ≤ 0 then s
  else if max (usageAt s.apps p.2 - e * (cpm p / t) / cpm p) 0 < usageAt s.apps p.2 then
    { apps := setUsage s.apps p.2 (max (usageAt s.apps p.2 - e * (cpm p / t) / cpm p) 0),
      dc := setL s.dc p.1 (dcAt s.dc p.1 *
        (max (usageAt s.apps p.2 - e * (cpm p / t) / cpm p) 0 / usageAt s.apps p.2)),
      adj := upsert s.adj p.2
        ⟨0, max (usageAt s.apps p.2 - e * (cpm p / t) / cpm p) 0 / 60,
          (usageAt s.apps p.2 - max (usageAt s.apps p.2 - e * (cpm p / t) / cpm p) 0) /
            usageAt s.apps p.2 * 100,
          usageAt s.apps p.2 / 60⟩ }
  else s

/-- One iteration of the while loop at lines 147-204: recompute the
excess and the total cost per minute, then run the inner for loop. -/
def phaseBIter (T : ℚ) (bal : List (ℕ × ℕ)) (cpm : ℕ × ℕ → ℚ) (s : BState) : BState :=
  bal.foldl (phaseBInner (totalBill30 s.dc - T) (totalCpm bal cpm s.apps) cpm) s

/-- The while loop at lines 146-204, with explicit fuel.  `none` means
the fuel ran out with the loop still running; `some` is the state at a
genuine loop exit (either `total_monthly_bill <= max_monthly_bill` or
the `total_cost_per_minute <= 0` break). -/
def phaseBLoop (T : ℚ) (bal : List (ℕ × ℕ)) (cpm : ℕ × ℕ → ℚ) :
    ℕ → BState → Option BState
  | 0, s => if totalBill30 s.dc ≤ T then some s else none
  | n + 1, s =>
    if totalBill30 s.dc ≤ T then some s
    else if totalCpm bal cpm s.apps ≤ 0 then some s
    else phaseBLoop T bal cpm n (phaseBIter T bal cpm s)

/-- Guarded single iteration (identity once the loop would have exited),
used to speak about the bill "across each iteration". -/
def phaseBGuard (T : ℚ) (bal : List (ℕ × ℕ)) (cpm : ℕ × ℕ → ℚ) (s : BState) : BState :=
  if totalBill30 s.dc ≤ T then s
  else if totalCpm bal cpm s.apps ≤ 0 then s
  else phaseBIter T bal cpm s

/-- State at the start of iteration `k` of the Phase-B while loop. -/
def phaseBRun (T : ℚ) (bal : List (ℕ × ℕ)) (cpm : ℕ × ℕ → ℚ) :
    ℕ → BState → BState
  | 0, s => s
  | n + 1, s => phaseBRun T bal cpm n (phaseBGuard T bal cpm s)

/-- Number of balancing pairs with currently positive usage (the
decreasing measure of the Phase-B loop). -/
def posCount (bal : List (ℕ × ℕ)) (apps : List Appliance) : ℕ :=
  (bal.filter (fun p => decide (0 < usageAt apps p.2))).length

/-! ### ApplianceBalancer.balance_appliances (lines 17-207) -/

/-- Lines 125-204: the recheck after Phase A, the empty-balancing-list
early return, the cost-per-minute cache and the while loop. -/
def phaseBCall (fuel : ℕ) (T : ℚ) (s1 : BState) (bal : List (ℕ × ℕ)) : Option BState :=
  if totalBill30 s1.dc ≤ T then some s1
  else if bal = [] then some s1
  else phaseBLoop T bal (cpmBalAt s1.apps s1.dc) fuel s1

/-- Result of Phase A (Steps 1-2, lines 47-123) starting from the input
appliances and daily costs. -/
def phaseAOut (apps : List Appliance) (dc : List ℚ) (T : ℚ) (valid : List ℕ) : BState :=
  (othListOf apps valid).foldl
    (phaseAStep (cpmOthersAt apps dc) (tcpmOthers apps dc valid) (T * (2 / 10)))
    ⟨apps, dc, []⟩

/-- balance_appliances.  `fuel` bounds the Phase-B while loop, which the
source leaves unbounded; every other path returns `some` regardless of
fuel.  The shallow `appliances.copy()` at line 35 shares the appliance
dictionaries, so a single `apps` list stands for both `appliances` and
`adjusted_appliances`. -/
def balance_appliances (fuel : ℕ) (apps : List Appliance) (dc : List ℚ)
    (T : ℚ) (valid : List ℕ) : Option BState :=
  if (calculate_monthly_bill dc).1 ≤ T ∨ T ≤ 0 then some ⟨apps, dc, []⟩
  else if T - T * (2 / 10) - sumQ ((excListOf apps valid).map (fun p => dcAt dc p.1)) * 30 ≤ 0 then
    some ⟨apps, dc, []⟩
  else
    phaseBCall fuel T (phaseAOut apps dc T valid) (balListOf apps valid)

/-! ### Deep-copy contrast variant of the Phase-B inner loop

The specification speaks of a working copy cloned from the input
("cloned into a working copy before balancing"); under that reading the
read of `appliances[orig_idx]["Usage Duration (minutes)"]` at line 168
would return the pre-call usage.  `phaseBInnerSnap` differs from
`phaseBInner` only in taking `original_usage_minutes` from the frozen
input list `apps0` instead of the live state, so the two definitions
diverge exactly when the aliasing of the shallow `appliances.copy()` is
observable. -/

def phaseBInnerSnap (apps0 : List Appliance) (e t : ℚ) (cpm : ℕ × ℕ → ℚ)
    (s : BState) (p : ℕ × ℕ) : BState :=
  if usageAt s.apps p.2 ≤ 0 then s
  else if cpm p ≤ 0 then s
  else if max (usageAt s.apps p.2 - e * (cpm p / t) / cpm p) 0 < usageAt s.apps p.2 then
    { apps := setUsage s.apps p.2 (max (usageAt s.apps p.2 - e * (cpm p / t) / cpm p) 0),
      dc := setL s.dc p.1 (dcAt s.dc p.1 *
        (max (usageAt s.apps p.2 - e * (cpm p / t) / cpm p) 0 / usageAt s.apps p.2)),
      adj := upsert s.adj p.2
        ⟨0, max (usageAt s.apps p.2 - e * (cpm p / t) / cpm p) 0 / 60,
          (usageAt s.apps p.2 - max (usageAt s.apps p.2 - e * (cpm p / t) / cpm p) 0) /
            usageAt apps0 p.2 * 100,
          usageAt apps0 p.2 / 60⟩ }
  else s

def phaseBIterSnap (apps0 : List Appliance) (T : ℚ) (bal : List (ℕ × ℕ))
    (cpm : ℕ × ℕ → ℚ) (s : BState) : BState :=
  bal.foldl (phaseBInnerSnap apps0 (totalBill30 s.dc - T) (totalCpm bal cpm s.apps) cpm) s

def phaseBLoopSnap (apps0 : List Appliance) (T : ℚ) (bal : List (ℕ × ℕ))
    (cpm : ℕ × ℕ → ℚ) : ℕ → BState → Option BState
  | 0, s => if totalBill30 s.dc ≤ T then some s else none
  | n + 1, s =>
    if totalBill30 s.dc ≤ T then some s
    else if totalCpm bal cpm s.apps ≤ 0 then some s
    else phaseBLoopSnap apps0 T bal cpm n (phaseBIterSnap apps0 T bal cpm s)

def phaseBCallSnap (apps0 : List Appliance) (fuel : ℕ) (T : ℚ) (s1 : BState)
    (bal : List (ℕ × ℕ)) : Option BState :=
  if totalBill30 s1.dc ≤ T then some s1
  else if bal = [] then some s1
  else phaseBLoopSnap apps0 T bal (cpmBalAt s1.apps s1.dc) fuel s1

def balance_appliances_snapshot (fuel : ℕ) (apps : List Appliance) (dc : List ℚ)
    (T : ℚ) (valid : List ℕ) : Option BState :=
  if (calculate_monthly_bill dc).1 ≤ T ∨ T ≤ 0 then some ⟨apps, dc, []⟩
  else if T - T * (2 / 10) - sumQ ((excListOf apps valid).map (fun p => dcAt dc p.1)) * 30 ≤ 0 then
    some ⟨apps, dc, []⟩
  else
    phaseBCallSnap apps fuel T (phaseAOut apps dc T valid) (balListOf apps valid)

/-! ### BillCalculator.adjust_usage_for_threshold (bill_calculator.py lines 55-143)

Single-pass variant: one common reduction factor, per-appliance maximum
allowed usage, and a 50%-of-original floor. -/

/-- cost_per_minute dictionary entry of Step 2 (lines 93-102), computed
from the state before Step 3; `p` is `(idx, (daily_cost, orig_idx))`
from `enumerate(zip(daily_costs, valid_indices))`. -/
def cpmAdjAt (apps : List Appliance) (p : ℕ × ℚ × ℕ) : ℚ :=
  if 0 < usageAt apps p.2.2 then p.2.1 / usageAt apps p.2.2 else 0

/-- Loop body of Step 3 (lines 104-137) for one `(idx, (daily_cost,
orig_idx))` triple, with the precomputed reduction factor `rf` and
cost-per-minute table `cpm`. -/
def adjStep (rf : ℚ) (cpm : ℕ × ℚ × ℕ → ℚ) (s : BState) (p : ℕ × ℚ × ℕ) : BState :=
  if cpm p ≤ 0 then s
  else if max (p.2.1 * rf / cpm p) (usageAt s.apps p.2.2 * (1 / 2)) < usageAt s.apps p.2.2 then
    { apps := setUsage s.apps p.2.2 (max (p.2.1 * rf / cpm p) (usageAt s.apps p.2.2 * (1 / 2))),
      dc := setL s.dc p.1 (dcAt s.dc p.1 *
        (max (p.2.1 * rf / cpm p) (usageAt s.apps p.2.2 * (1 / 2)) / usageAt s.apps p.2.2)),
      adj := upsert s.adj p.2.2
        ⟨2, max (p.2.1 * rf / cpm p) (usageAt s.apps p.2.2 * (1 / 2)) / 60,
          (usageAt s.apps p.2.2 - max (p.2.1 * rf / cpm p) (usageAt s.apps p.2.2 * (1 / 2))) /
            usageAt s.apps p.2.2 * 100,
          usageAt s.apps p.2.2 / 60⟩ }
  else s

/-- Reduction factor of Step 1 (lines 84-91). -/
def reductionFactor (dc : List ℚ) (T : ℚ) : ℚ :=
  if 0 < sumQ dc then T / 30 / sumQ dc else 1

/-- adjust_usage_for_threshold. -/
def adjust_usage_for_threshold (apps : List Appliance) (dc : List ℚ)
    (T : ℚ) (valid : List ℕ) : BState :=
  if (calculate_monthly_bill dc).1 ≤ T ∨ T ≤ 0 then ⟨apps, dc, []⟩
  else
    ((dc.zip valid).enum).foldl
      (adjStep (reductionFactor dc T) (cpmAdjAt apps)) ⟨apps, dc, []⟩

/-! ### finalProduct/data_processor.py apply_threshold (lines 68-187)

Appliance objects of this variant carry the prediction bookkeeping
fields.  The cost model (`self.model.predict` composed with the fixed
encoders/scaler of the class) is an external oracle, abstracted as a
function from (device type, power watts, usage minutes) to a predicted
daily cost.  The `action` strings are abstracted to the pairs of numbers
they are formatted from, tagged `false` for a usage reduction and `true`
for a power reduction (which the source appends with `+=`). -/

structure FPAppliance where
  deviceType : String
  powerW : ℚ
  dailyUsageHours : ℚ
  predictedCost : ℚ
  adjustedUsageHours : ℚ
  adjustedPowerW : ℚ
  adjustedCost : ℚ
  action : List (Bool × ℚ × ℚ)
  costPerHour : ℚ
deriving DecidableEq

instance : Inhabited FPAppliance := ⟨⟨"", 0, 0, 0, 0, 0, 0, [], 0⟩⟩

def highCostTypes : List String := ["Heater", "Air Conditioner", "Microwave", "Washing Machine"]

def fpTotalCost (apps : List FPAppliance) : ℚ := sumQ (apps.map FPAppliance.adjustedCost)

/-- Stable descending insertion (by adjusted cost) of index `i` into an
already-sorted index list: `i` goes after every entry with a cost not
smaller than its own, matching Python's stable
`sorted(key=..., reverse=True)`. -/
def fpInsertDesc (apps : List FPAppliance) (i : ℕ) : List ℕ → List ℕ
  | [] => [i]
  | j :: rest =>
    if (getL apps j).adjustedCost < (getL apps i).adjustedCost then i :: j :: rest
    else j :: fpInsertDesc apps i rest

/-- Index order of `sorted_appliances` (line 83). -/
def fpSortedIdxs (apps : List FPAppliance) : List ℕ :=
  (List.range apps.length).foldl (fun acc i => fpInsertDesc apps i acc) []

/-- cost_per_hour assignment of lines 87-91 (written for every
appliance). -/
def fpSetCph (apps : List FPAppliance) : List FPAppliance :=
  apps.map (fun a => { a with costPerHour :=
    if 0 < a.dailyUsageHours then a.adjustedCost / (a.dailyUsageHours * 30) else 0 })

/-- total_cost_per_hour of lines 96-97. -/
def fpTcph (apps : List FPAppliance) (order : List ℕ) : ℚ :=
  sumQ (((order.map (getL apps)).filter
    (fun a => highCostTypes.contains a.deviceType &&
      decide (a.dailyUsageHours * (1 / 2) < a.adjustedUsageHours))).map FPAppliance.costPerHour)

/-- The body of the inner for loop at lines 103-137 for one index;
`e` is the excess cost and `t` the total cost per hour of the current
while-iteration, `pc` the abstracted cost model. -/
def fpUsageBody (pc : String → ℚ → ℚ → ℚ) (e t : ℚ) (cur : List FPAppliance)
    (i : ℕ) : List FPAppliance :=
  if !highCostTypes.contains (getL cur i).deviceType then cur
  else if (getL cur i).adjustedUsageHours ≤ (getL cur i).dailyUsageHours * (1 / 2) then cur
  else if (getL cur i).costPerHour = 0 then cur
  else if max ((getL cur i).adjustedUsageHours -
      e * ((getL cur i).costPerHour / t) / (getL cur i).costPerHour / 30)
      ((getL cur i).dailyUsageHours * (1 / 2)) < (getL cur i).adjustedUsageHours then
    setL cur i { getL cur i with
      adjustedUsageHours := max ((getL cur i).adjustedUsageHours -
        e * ((getL cur i).costPerHour / t) / (getL cur i).costPerHour / 30)
        ((getL cur i).dailyUsageHours * (1 / 2)),
      action := [(false,
        ((getL cur i).adjustedUsageHours - max ((getL cur i).adjustedUsageHours -
          e * ((getL cur i).costPerHour / t) / (getL cur i).costPerHour / 30)
          ((getL cur i).dailyUsageHours * (1 / 2))) /
          (getL cur i).dailyUsageHours * 100,
        max ((getL cur i).adjustedUsageHours -
          e * ((getL cur i).costPerHour / t) / (getL cur i).costPerHour / 30)
          ((getL cur i).dailyUsageHours * (1 / 2)))],
      adjustedCost := pc (getL cur i).deviceType (getL cur i).adjustedPowerW
        (max ((getL cur i).adjustedUsageHours -
          e * ((getL cur i).costPerHour / t) / (getL cur i).costPerHour / 30)
          ((getL cur i).dailyUsageHours * (1 / 2)) * 60) * 30 }
  else cur

/-- One iteration of the usage-reduction while loop (lines 94-139). -/
def fpUsageStep (pc : String → ℚ → ℚ → ℚ) (threshold : ℚ) (order : List ℕ)
    (apps : List FPAppliance) : List FPAppliance :=
  order.foldl (fpUsageBody pc (fpTotalCost apps - threshold) (fpTcph apps order)) apps

/-- The usage-reduction while loop, with fuel; breaks when
`total_cost_per_hour == 0`. -/
def fpUsageLoop (pc : String → ℚ → ℚ → ℚ) (threshold : ℚ) (order : List ℕ) :
    ℕ → List FPAppliance → Option (List FPAppliance)
  | 0, apps => if fpTotalCost apps ≤ threshold then some apps else none
  | n + 1, apps =>
    if fpTotalCost apps ≤ threshold then some apps
    else if fpTcph apps order = 0 then some apps
    else fpUsageLoop pc threshold order n (fpUsageStep pc threshold order apps)

/-- total_cost_per_watt of lines 144-146. -/
def fpTcpw (apps : List FPAppliance) (order : List ℕ) : ℚ :=
  sumQ (((order.map (getL apps)).filter
    (fun a => highCostTypes.contains a.deviceType &&
      decide (a.powerW * (8 / 10) < a.adjustedPowerW))).map
    (fun a => a.adjustedCost / a.adjustedPowerW))

/-- The body of the power-reduction for loop at lines 149-183 for one
index, with the excess `e` and total cost per watt `t` fixed before the
loop. -/
def fpPowerBody (pc : String → ℚ → ℚ → ℚ) (e t : ℚ) (cur : List FPAppliance)
    (i : ℕ) : List FPAppliance :=
  if !highCostTypes.contains (getL cur i).deviceType then cur
  else if (getL cur i).adjustedPowerW ≤ (getL cur i).powerW * (8 / 10) then cur
  else if (getL cur i).adjustedCost / (getL cur i).adjustedPowerW = 0 then cur
  else if max ((getL cur i).adjustedPowerW -
      e * ((getL cur i).adjustedCost / (getL cur i).adjustedPowerW / t) /
        ((getL cur i).adjustedCost / (getL cur i).adjustedPowerW) * 30)
      ((getL cur i).powerW * (8 / 10)) < (getL cur i).adjustedPowerW then
    setL cur i { getL cur i with
      adjustedPowerW := max ((getL cur i).adjustedPowerW -
        e * ((getL cur i).adjustedCost / (getL cur i).adjustedPowerW / t) /
          ((getL cur i).adjustedCost / (getL cur i).adjustedPowerW) * 30)
        ((getL cur i).powerW * (8 / 10)),
      action := (getL cur i).action ++ [(true,
        ((getL cur i).adjustedPowerW - max ((getL cur i).adjustedPowerW -
          e * ((getL cur i).adjustedCost / (getL cur i).adjustedPowerW / t) /
            ((getL cur i).adjustedCost / (getL cur i).adjustedPowerW) * 30)
          ((getL cur i).powerW * (8 / 10))) / (getL cur i).powerW * 100,
        max ((getL cur i).adjustedPowerW -
          e * ((getL cur i).adjustedCost / (getL cur i).adjustedPowerW / t) /
            ((getL cur i).adjustedCost / (getL cur i).adjustedPowerW) * 30)
          ((getL cur i).powerW * (8 / 10)))],
      adjustedCost := pc (getL cur i).deviceType
        (max ((getL cur i).adjustedPowerW -
          e * ((getL cur i).adjustedCost / (getL cur i).adjustedPowerW / t) /
            ((getL cur i).adjustedCost / (getL cur i).adjustedPowerW) * 30)
          ((getL cur i).powerW * (8 / 10)))
        ((getL cur i).adjustedUsageHours * 60) * 30 }
  else cur

/-- The single power-reduction pass of lines 142-183. -/
def fpPowerStep (pc : String → ℚ → ℚ → ℚ) (threshold : ℚ) (order : List ℕ)
    (apps : List FPAppliance) : List FPAppliance :=
  order.foldl (fpPowerBody pc (fpTotalCost apps - threshold) (fpTcpw apps order)) apps

/-- Fields of an `FPAppliance` the specification calls its usage, power
and cost state (plus the adjustment record held in `action`);
`cost_per_hour` is a scratch field rewritten for every appliance. -/
def fpFieldsEq (a b : FPAppliance) : Prop :=
  b.deviceType = a.deviceType ∧ b.adjustedUsageHours = a.adjustedUsageHours ∧
    b.adjustedPowerW = a.adjustedPowerW ∧ b.adjustedCost = a.adjustedCost ∧
    b.action = a.action

/-- apply_threshold.  Returns the appliance list after the pass (the
source mutates in place and writes a report file, which carries no
appliance state). -/
def apply_threshold (pc : String → ℚ → ℚ → ℚ) (fuel : ℕ)
    (apps : List FPAppliance) (threshold : ℚ) : Option (List FPAppliance) :=
  if threshold ≤ 0 then some apps
  else if fpTotalCost apps ≤ threshold then some apps
  else
    match fpUsageLoop pc threshold (fpSortedIdxs apps) fuel (fpSetCph apps) with
    | none => none
    | some apps2 =>
      if threshold < fpTotalCost apps2 then
        if 0 < fpTcpw apps2 (fpSortedIdxs apps) then
          some (fpPowerStep pc threshold (fpSortedIdxs apps) apps2)
        else some apps2
      else some apps2

/-! ### Proof-side characterizations of the Phase-B inner body -/

/-- Usage written (or kept) by `phaseBInner` at its own pair, expressed
against the state the body reads. -/
def innerU (e t : ℚ) (cpm : ℕ × ℕ → ℚ) (s : BState) (p : ℕ × ℕ) : ℚ :=
  if usageAt s.apps p.2 ≤ 0 then usageAt s.apps p.2
  else if cpm p ≤ 0 then usageAt s.apps p.2
  else if max (usageAt s.apps p.2 - e * (cpm p / t) / cpm p) 0 < usageAt s.apps p.2 then
    max (usageAt s.apps p.2 - e * (cpm p / t) / cpm p) 0
  else usageAt s.apps p.2

/-- Daily cost written (or kept) by `phaseBInner` at its own pair. -/
def innerD (e t : ℚ) (cpm : ℕ × ℕ → ℚ) (s : BState) (p : ℕ × ℕ) : ℚ :=
  if usageAt s.apps p.2 ≤ 0 then dcAt s.dc p.1
  else if cpm p ≤ 0 then dcAt s.dc p.1
  else if max (usageAt s.apps p.2 - e * (cpm p / t) / cpm p) 0 < usageAt s.apps p.2 then
    dcAt s.dc p.1 * (max (usageAt s.apps p.2 - e * (cpm p / t) / cpm p) 0 / usageAt s.apps p.2)
  else dcAt s.dc p.1

/-- Invariant of the Phase-B loop: the cost-per-minute cache stays exact
for every balancing pair with positive usage. -/
def InvB (bal : List (ℕ × ℕ)) (cpm : ℕ × ℕ → ℚ) (s : BState) : Prop :=
  ∀ p ∈ bal, 0 < usageAt s.apps p.2 → dcAt s.dc p.1 = cpm p * usageAt s.apps p.2

/-! ## Lemmas: list helpers -/

theorem getL_of_ge {α : Type} [Inhabited α] :
    ∀ (l : List α) (i : ℕ), l.length ≤ i → getL l i = default
  | [], _, _ => rfl
  | _ :: xs, n + 1, h => getL_of_ge xs n (Nat.le_of_succ_le_succ h)

theorem setL_of_ge {α : Type} :
    ∀ (l : List α) (i : ℕ) (v : α), l.length ≤ i → setL l i v = l
  | [], _, _, _ => rfl
  | x :: xs, n + 1, v, h => by
    simpa [setL] using setL_of_ge xs n v (Nat.le_of_succ_le_succ h)

theorem length_setL {α : Type} :
    ∀ (l : List α) (i : ℕ) (v : α), (setL l i v).length = l.length
  | [], _, _ => rfl
  | _ :: _, 0, _ => rfl
  | x :: xs, n + 1, v => by simp [setL, length_setL xs n v]

theorem getL_setL_self {α : Type} [Inhabited α] :
    ∀ (l : List α) (i : ℕ) (v : α), i < l.length → getL (setL l i v) i = v
  | _ :: _, 0, _, _ => rfl
  | x :: xs, n + 1, v, h => getL_setL_self xs n v (Nat.lt_of_succ_lt_succ h)

theorem getL_setL_ne {α : Type} [Inhabited α] :
    ∀ (l : List α) (i j : ℕ) (v : α), j ≠ i → getL (setL l i v) j = getL l j
  | [], _, _, _, _ => rfl
  | _ :: _, 0, 0, _, h => absurd rfl h
  | _ :: _, 0, _ + 1, _, _ => rfl
  | _ :: _, _ + 1, 0, _, _ => rfl
  | _ :: xs, n + 1, m + 1, v, h => getL_setL_ne xs n m v (fun e => h (by rw [e]))

theorem sumQ_setL :
    ∀ (l : List ℚ) (i : ℕ) (v : ℚ), i < l.length →
      sumQ (setL l i v) = sumQ l - getL l i + v
  | x :: xs, 0, v, _ => by simp [setL, sumQ, getL]; ring
  | x :: xs, n + 1, v, h => by
    simp only [setL, sumQ, getL, sumQ_setL xs n v (Nat.lt_of_succ_lt_succ h)]
    ring

theorem sumQ_append : ∀ (l₁ l₂ : List ℚ), sumQ (l₁ ++ l₂) = sumQ l₁ + sumQ l₂
  | [], l₂ => by simp [sumQ]
  | x :: xs, l₂ => by simp [sumQ, sumQ_append xs l₂]; ring

theorem sumQ_map_le {α : Type} (f g : α → ℚ) :
    ∀ (l : List α), (∀ a ∈ l, f a ≤ g a) → sumQ (l.map f) ≤ sumQ (l.map g)
  | [], _ => le_refl 0
  | x :: xs, h => by
    simp only [List.map_cons, sumQ]
    exact add_le_add (h x (List.mem_cons_self x xs))
      (sumQ_map_le f g xs (fun a ha => h a (List.mem_cons_of_mem x ha)))

theorem sumQ_map_congr {α : Type} {f g : α → ℚ} :
    ∀ {l : List α}, (∀ a ∈ l, f a = g a) → sumQ (l.map f) = sumQ (l.map g)
  | [], _ => rfl
  | x :: xs, h => by
    simp only [List.map_cons, sumQ]
    rw [h x (List.mem_cons_self x xs), sumQ_map_congr (fun a ha => h a (List.mem_cons_of_mem x ha))]

theorem sumQ_map_mul_left {α : Type} (c : ℚ) (f : α → ℚ) :
    ∀ (l : List α), sumQ (l.map (fun a => c * f a)) = c * sumQ (l.map f)
  | [] => by simp [sumQ]
  | x :: xs => by simp [sumQ, sumQ_map_mul_left c f xs]; ring

theorem sumQ_filter_map {α : Type} (q : α → Bool) (f : α → ℚ) :
    ∀ (l : List α), sumQ ((l.filter q).map f) = sumQ (l.map (fun a => if q a then f a else 0))
  | [] => rfl
  | x :: xs => by
    by_cases h : q x
    · simp [List.filter_cons, h, sumQ, sumQ_filter_map q f xs]
    · simp [List.filter_cons, h, sumQ, sumQ_filter_map q f xs]

theorem filter_length_mono {α : Type} (p q : α → Bool) :
    ∀ (l : List α), (∀ a ∈ l, q a = true → p a = true) →
      (l.filter q).length ≤ (l.filter p).length
  | [], _ => le_refl 0
  | x :: xs, h => by
    have ih := filter_length_mono p q xs (fun a ha => h a (List.mem_cons_of_mem x ha))
    by_cases hq : q x
    · rw [List.filter_cons_of_pos hq, List.filter_cons_of_pos (h x (List.mem_cons_self x xs) hq)]
      simpa using ih
    · rw [List.filter_cons_of_neg (by simpa using hq)]
      by_cases hp : p x
      · rw [List.filter_cons_of_pos hp]; exact Nat.le_succ_of_le ih
      · rw [List.filter_cons_of_neg (by simpa using hp)]; exact ih

theorem filter_length_strict {α : Type} (p q : α → Bool) :
    ∀ (l : List α), (∀ a ∈ l, q a = true → p a = true) →
      ∀ a0 ∈ l, p a0 = true → q a0 = false →
        (l.filter q).length < (l.filter p).length
  | [], _, a0, ha0, _, _ => absurd ha0 (List.not_mem_nil a0)
  | x :: xs, h, a0, ha0, hp0, hq0 => by
    rcases List.mem_cons.mp ha0 with rfl | hmem
    · rw [List.filter_cons_of_neg (by simp [hq0]), List.filter_cons_of_pos hp0]
      exact Nat.lt_succ_of_le
        (filter_length_mono p q xs (fun a ha => h a (List.mem_cons_of_mem _ ha)))
    · have ih := filter_length_strict p q xs
        (fun a ha => h a (List.mem_cons_of_mem x ha)) a0 hmem hp0 hq0
      by_cases hq : q x
      · rw [List.filter_cons_of_pos hq, List.filter_cons_of_pos (h x (List.mem_cons_self x xs) hq)]
        simpa using ih
      · rw [List.filter_cons_of_neg (by simpa using hq)]
        by_cases hp : p x
        · rw [List.filter_cons_of_pos hp]; exact Nat.lt_succ_of_lt ih
        · rw [List.filter_cons_of_neg (by simpa using hp)]; exact ih

/-! ## Lemmas: state accessors -/

theorem usageAt_pos_lt {apps : List Appliance} {i : ℕ} (h : 0 < usageAt apps i) :
    i < apps.length := by
  by_contra hge
  rw [usageAt, getL_of_ge apps i (Nat.le_of_not_lt hge)] at h
  exact absurd h (by norm_num [default])

theorem usageAt_setUsage_self {apps : List Appliance} {i : ℕ} (v : ℚ)
    (h : i < apps.length) : usageAt (setUsage apps i v) i = v := by
  rw [usageAt, setUsage, getL_setL_self _ _ _ h]

theorem usageAt_setUsage_ne (apps : List Appliance) (i j : ℕ) (v : ℚ) (h : j ≠ i) :
    usageAt (setUsage apps i v) j = usageAt apps j := by
  rw [usageAt, setUsage, getL_setL_ne _ _ _ _ h, usageAt]

theorem getL_setUsage_ne (apps : List Appliance) (i j : ℕ) (v : ℚ) (h : j ≠ i) :
    getL (setUsage apps i v) j = getL apps j :=
  getL_setL_ne _ _ _ _ h

theorem length_setUsage (apps : List Appliance) (i : ℕ) (v : ℚ) :
    (setUsage apps i v).length = apps.length := length_setL _ _ _

theorem dcAt_setL_ne (dc : List ℚ) (i j : ℕ) (v : ℚ) (h : j ≠ i) :
    dcAt (setL dc i v) j = dcAt dc j :=
  getL_setL_ne _ _ _ _ h

theorem dcAt_of_ge {dc : List ℚ} {i : ℕ} (h : dc.length ≤ i) : dcAt dc i = 0 :=
  getL_of_ge dc i h

theorem sumQ_setL_dc (dc : List ℚ) (i : ℕ) (v : ℚ) :
    sumQ (setL dc i v) = sumQ dc - dcAt dc i + v ∨
      (dc.length ≤ i ∧ setL dc i v = dc ∧ dcAt dc i = 0) := by
  by_cases h : i < dc.length
  · exact Or.inl (sumQ_setL dc i v h)
  · exact Or.inr ⟨Nat.le_of_not_lt h, setL_of_ge dc i v (Nat.le_of_not_lt h),
      dcAt_of_ge (Nat.le_of_not_lt h)⟩

theorem lookupAdj_nil (k : ℕ) : lookupAdj [] k = none := rfl

theorem find?_map_upsert {m : List (ℕ × AdjRec)} {k j : ℕ} {v : AdjRec} (h : j ≠ k) :
    (m.map (fun q => if q.1 == k then (k, v) else q)).find? (fun q => q.1 == j) =
      m.find? (fun q => q.1 == j) := by
  induction m with
  | nil => rfl
  | cons q m ih =>
    by_cases hq : q.1 = k
    · have h1 : (if q.1 == k then (k, v) else q) = (k, v) := by simp [hq]
      rw [List.map_cons, h1, List.find?_cons, List.find?_cons]
      have h2 : ((k, v).1 == j) = false := by simp [Ne.symm h]
      have h3 : (q.1 == j) = false := by simp [hq, Ne.symm h]
      rw [h2, h3]; exact ih
    · have h1 : (if q.1 == k then (k, v) else q) = q := by simp [hq]
      rw [List.map_cons, h1, List.find?_cons, List.find?_cons]
      by_cases hj : q.1 = j
      · simp [hj]
      · have h3 : (q.1 == j) = false := by simp [hj]
        rw [h3]; exact ih

theorem find?_append_single {m : List (ℕ × AdjRec)} {k j : ℕ} {v : AdjRec} (h : j ≠ k) :
    (m ++ [(k, v)]).find? (fun q => q.1 == j) = m.find? (fun q => q.1 == j) := by
  induction m with
  | nil =>
    have hkj : (k == j) = false := by simp [Ne.symm h]
    simp [List.find?, hkj]
  | cons q m ih =>
    rw [List.cons_append, List.find?_cons, List.find?_cons]
    by_cases hj : q.1 = j
    · simp [hj]
    · have h3 : (q.1 == j) = false := by simp [hj]
      rw [h3]; exact ih

theorem lookupAdj_upsert_ne (m : List (ℕ × AdjRec)) (k j : ℕ) (v : AdjRec) (h : j ≠ k) :
    lookupAdj (upsert m k v) j = lookupAdj m j := by
  rw [upsert]
  by_cases hany : m.any (fun q => q.1 == k)
  · rw [if_pos hany, lookupAdj, lookupAdj, find?_map_upsert h]
  · rw [if_neg hany, lookupAdj, lookupAdj, find?_append_single h]

/-! ## Lemmas: Phase-B inner body -/

theorem inner_apps_length (e t : ℚ) (cpm : ℕ × ℕ → ℚ) (s : BState) (p : ℕ × ℕ) :
    (phaseBInner e t cpm s p).apps.length = s.apps.length := by
  rw [phaseBInner]
  split_ifs <;> simp [length_setUsage]

theorem inner_dc_length (e t : ℚ) (cpm : ℕ × ℕ → ℚ) (s : BState) (p : ℕ × ℕ) :
    (phaseBInner e t cpm s p).dc.length = s.dc.length := by
  rw [phaseBInner]
  split_ifs <;> simp [length_setL]

theorem inner_usage_ne (e t : ℚ) (cpm : ℕ × ℕ → ℚ) (s : BState) (p : ℕ × ℕ)
    (i : ℕ) (h : i ≠ p.2) :
    usageAt (phaseBInner e t cpm s p).apps i = usageAt s.apps i := by
  rw [phaseBInner]
  split_ifs <;> simp [usageAt_setUsage_ne _ _ _ _ h]

theorem inner_getL_ne (e t : ℚ) (cpm : ℕ × ℕ → ℚ) (s : BState) (p : ℕ × ℕ)
    (i : ℕ) (h : i ≠ p.2) :
    getL (phaseBInner e t cpm s p).apps i = getL s.apps i := by
  rw [phaseBInner]
  split_ifs <;> simp [getL_setUsage_ne _ _ _ _ h]

theorem inner_dc_ne (e t : ℚ) (cpm : ℕ × ℕ → ℚ) (s : BState) (p : ℕ × ℕ)
    (j : ℕ) (h : j ≠ p.1) :
    dcAt (phaseBInner e t cpm s p).dc j = dcAt s.dc j := by
  rw [phaseBInner]
  split_ifs <;> simp [dcAt_setL_ne _ _ _ _ h]

theorem inner_adj_ne (e t : ℚ) (cpm : ℕ × ℕ → ℚ) (s : BState) (p : ℕ × ℕ)
    (k : ℕ) (h : k ≠ p.2) :
    lookupAdj (phaseBInner e t cpm s p).adj k = lookupAdj s.adj k := by
  rw [phaseBInner]
  split_ifs <;> simp [lookupAdj_upsert_ne _ _ _ _ h]

theorem inner_usage_self (e t : ℚ) (cpm : ℕ × ℕ → ℚ) (s : BState) (p : ℕ × ℕ) :
    usageAt (phaseBInner e t cpm s p).apps p.2 = innerU e t cpm s p := by
  rw [phaseBInner, innerU]
  split_ifs with h1 h2 h3
  · rfl
  · rfl
  · exact usageAt_setUsage_self _ (usageAt_pos_lt (lt_of_not_le h1))
  · rfl

theorem inner_dc_self (e t : ℚ) (cpm : ℕ × ℕ → ℚ) (s : BState) (p : ℕ × ℕ) :
    dcAt (phaseBInner e t cpm s p).dc p.1 = innerD e t cpm s p := by
  rw [phaseBInner, innerD]
  split_ifs with h1 h2 h3
  · rfl
  · rfl
  · by_cases hlen : p.1 < s.dc.length
    · exact getL_setL_self _ _ _ hlen
    · have hge := Nat.le_of_not_lt hlen
      show dcAt (setL s.dc p.1 _) p.1 = _
      rw [setL_of_ge _ _ _ hge, dcAt_of_ge hge, zero_mul]
  · rfl

theorem innerU_congr (e t : ℚ) (cpm : ℕ × ℕ → ℚ) {s s2 : BState} (p : ℕ × ℕ)
    (hu : usageAt s.apps p.2 = usageAt s2.apps p.2) :
    innerU e t cpm s p = innerU e t cpm s2 p := by
  rw [innerU, innerU, hu]

theorem innerD_congr (e t : ℚ) (cpm : ℕ × ℕ → ℚ) {s s2 : BState} (p : ℕ × ℕ)
    (hu : usageAt s.apps p.2 = usageAt s2.apps p.2)
    (hd : dcAt s.dc p.1 = dcAt s2.dc p.1) :
    innerD e t cpm s p = innerD e t cpm s2 p := by
  rw [innerD, innerD, hu, hd]

theorem inner_usage_le (e t : ℚ) (cpm : ℕ × ℕ → ℚ) (s : BState) (p : ℕ × ℕ) (i : ℕ) :
    usageAt (phaseBInner e t cpm s p).apps i ≤ usageAt s.apps i := by
  by_cases h : i = p.2
  · subst h
    rw [inner_usage_self, innerU]
    split_ifs with h1 h2 h3
    · exact le_refl _
    · exact le_refl _
    · exact le_of_lt h3
    · exact le_refl _
  · rw [inner_usage_ne _ _ _ _ _ _ h]

theorem inner_usage_nonneg (e t : ℚ) (cpm : ℕ × ℕ → ℚ) (s : BState) (p : ℕ × ℕ)
    (i : ℕ) (h0 : 0 ≤ usageAt s.apps i) :
    0 ≤ usageAt (phaseBInner e t cpm s p).apps i := by
  by_cases h : i = p.2
  · subst h
    rw [inner_usage_self, innerU]
    split_ifs with h1 h2 h3
    · exact h0
    · exact h0
    · exact le_max_right _ _
    · exact h0
  · rw [inner_usage_ne _ _ _ _ _ _ h]; exact h0

theorem inner_dc_sum (e t : ℚ) (cpm : ℕ × ℕ → ℚ) (s : BState) (p : ℕ × ℕ) :
    sumQ (phaseBInner e t cpm s p).dc =
      sumQ s.dc - (dcAt s.dc p.1 - innerD e t cpm s p) := by
  rw [phaseBInner, innerD]
  split_ifs with h1 h2 h3
  · ring_nf
  · ring_nf
  · show sumQ (setL s.dc p.1 _) = _
    rcases sumQ_setL_dc s.dc p.1 (dcAt s.dc p.1 *
        (max (usageAt s.apps p.2 - e * (cpm p / t) / cpm p) 0 / usageAt s.apps p.2)) with h | h
    · rw [h]; ring
    · rw [h.2.1, h.2.2]; ring
  · ring_nf

/-! ## Lemmas: the inner for loop of one Phase-B iteration -/

theorem foldB_usage_not_mem (e t : ℚ) (cpm : ℕ × ℕ → ℚ) :
    ∀ (l : List (ℕ × ℕ)) (s : BState) (i : ℕ), i ∉ l.map Prod.snd →
      usageAt (l.foldl (phaseBInner e t cpm) s).apps i = usageAt s.apps i
  | [], _, _, _ => rfl
  | p :: l, s, i, h => by
    have h1 : i ∉ l.map Prod.snd := fun hm => h (List.mem_cons_of_mem _ hm)
    have h2 : i ≠ p.2 := fun he => h (by rw [List.map_cons, he]; exact List.mem_cons_self _ _)
    rw [List.foldl_cons, foldB_usage_not_mem e t cpm l _ i h1, inner_usage_ne _ _ _ _ _ _ h2]

theorem foldB_getL_not_mem (e t : ℚ) (cpm : ℕ × ℕ → ℚ) :
    ∀ (l : List (ℕ × ℕ)) (s : BState) (i : ℕ), i ∉ l.map Prod.snd →
      getL (l.foldl (phaseBInner e t cpm) s).apps i = getL s.apps i
  | [], _, _, _ => rfl
  | p :: l, s, i, h => by
    have h1 : i ∉ l.map Prod.snd := fun hm => h (List.mem_cons_of_mem _ hm)
    have h2 : i ≠ p.2 := fun he => h (by rw [List.map_cons, he]; exact List.mem_cons_self _ _)
    rw [List.foldl_cons, foldB_getL_not_mem e t cpm l _ i h1, inner_getL_ne _ _ _ _ _ _ h2]

theorem foldB_dc_not_mem (e t : ℚ) (cpm : ℕ × ℕ → ℚ) :
    ∀ (l : List (ℕ × ℕ)) (s : BState) (j : ℕ), j ∉ l.map Prod.fst →
      dcAt (l.foldl (phaseBInner e t cpm) s).dc j = dcAt s.dc j
  | [], _, _, _ => rfl
  | p :: l, s, j, h => by
    have h1 : j ∉ l.map Prod.fst := fun hm => h (List.mem_cons_of_mem _ hm)
    have h2 : j ≠ p.1 := fun he => h (by rw [List.map_cons, he]; exact List.mem_cons_self _ _)
    rw [List.foldl_cons, foldB_dc_not_mem e t cpm l _ j h1, inner_dc_ne _ _ _ _ _ _ h2]

theorem foldB_adj_not_mem (e t : ℚ) (cpm : ℕ × ℕ → ℚ) :
    ∀ (l : List (ℕ × ℕ)) (s : BState) (k : ℕ), k ∉ l.map Prod.snd →
      lookupAdj (l.foldl (phaseBInner e t cpm) s).adj k = lookupAdj s.adj k
  | [], _, _, _ => rfl
  | p :: l, s, k, h => by
    have h1 : k ∉ l.map Prod.snd := fun hm => h (List.mem_cons_of_mem _ hm)
    have h2 : k ≠ p.2 := fun he => h (by rw [List.map_cons, he]; exact List.mem_cons_self _ _)
    rw [List.foldl_cons, foldB_adj_not_mem e t cpm l _ k h1, inner_adj_ne _ _ _ _ _ _ h2]

theorem foldB_apps_length (e t : ℚ) (cpm : ℕ × ℕ → ℚ) :
    ∀ (l : List (ℕ × ℕ)) (s : BState),
      (l.foldl (phaseBInner e t cpm) s).apps.length = s.apps.length
  | [], _ => rfl
  | p :: l, s => by
    rw [List.foldl_cons, foldB_apps_length e t cpm l _, inner_apps_length]

theorem foldB_dc_length (e t : ℚ) (cpm : ℕ × ℕ → ℚ) :
    ∀ (l : List (ℕ × ℕ)) (s : BState),
      (l.foldl (phaseBInner e t cpm) s).dc.length = s.dc.length
  | [], _ => rfl
  | p :: l, s => by
    rw [List.foldl_cons, foldB_dc_length e t cpm l _, inner_dc_length]

theorem foldB_usage_le (e t : ℚ) (cpm : ℕ × ℕ → ℚ) :
    ∀ (l : List (ℕ × ℕ)) (s : BState) (i : ℕ),
      usageAt (l.foldl (phaseBInner e t cpm) s).apps i ≤ usageAt s.apps i
  | [], _, _ => le_refl _
  | p :: l, s, i => by
    rw [List.foldl_cons]
    exact le_trans (foldB_usage_le e t cpm l _ i) (inner_usage_le _ _ _ _ _ _)

theorem foldB_usage_nonneg (e t : ℚ) (cpm : ℕ × ℕ → ℚ) :
    ∀ (l : List (ℕ × ℕ)) (s : BState) (i : ℕ), 0 ≤ usageAt s.apps i →
      0 ≤ usageAt (l.foldl (phaseBInner e t cpm) s).apps i
  | [], _, _, h => h
  | p :: l, s, i, h => by
    rw [List.foldl_cons]
    exact foldB_usage_nonneg e t cpm l _ i (inner_usage_nonneg _ _ _ _ _ _ h)

theorem foldB_mem (e t : ℚ) (cpm : ℕ × ℕ → ℚ) :
    ∀ (l : List (ℕ × ℕ)) (s : BState),
      (l.map Prod.fst).Nodup → (l.map Prod.snd).Nodup →
      ∀ p ∈ l, usageAt (l.foldl (phaseBInner e t cpm) s).apps p.2 = innerU e t cpm s p ∧
        dcAt (l.foldl (phaseBInner e t cpm) s).dc p.1 = innerD e t cpm s p
  | [], _, _, _, p, hp => absurd hp (List.not_mem_nil p)
  | q :: l, s, h1, h2, p, hp => by
    rw [List.map_cons, List.nodup_cons] at h1 h2
    rcases List.mem_cons.mp hp with rfl | hmem
    · constructor
      · rw [List.foldl_cons, foldB_usage_not_mem e t cpm l _ _ h2.1, inner_usage_self]
      · rw [List.foldl_cons, foldB_dc_not_mem e t cpm l _ _ h1.1, inner_dc_self]
    · have hne2 : p.2 ≠ q.2 := fun he =>
        h2.1 (he ▸ List.mem_map_of_mem Prod.snd hmem)
      have hne1 : p.1 ≠ q.1 := fun he =>
        h1.1 (he ▸ List.mem_map_of_mem Prod.fst hmem)
      have ih := foldB_mem e t cpm l (phaseBInner e t cpm s q) h1.2 h2.2 p hmem
      rw [List.foldl_cons]
      constructor
      · rw [ih.1, innerU_congr e t cpm p (inner_usage_ne e t cpm s q p.2 hne2)]
      · rw [ih.2, innerD_congr e t cpm p (inner_usage_ne e t cpm s q p.2 hne2)
          (inner_dc_ne e t cpm s q p.1 hne1)]

theorem foldB_sum (e t : ℚ) (cpm : ℕ × ℕ → ℚ) :
    ∀ (l : List (ℕ × ℕ)) (s : BState),
      (l.map Prod.fst).Nodup → (l.map Prod.snd).Nodup →
      sumQ (l.foldl (phaseBInner e t cpm) s).dc =
        sumQ s.dc - sumQ (l.map (fun p => dcAt s.dc p.1 - innerD e t cpm s p))
  | [], s, _, _ => by simp [sumQ]
  | q :: l, s, h1, h2 => by
    rw [List.map_cons, List.nodup_cons] at h1 h2
    have ih := foldB_sum e t cpm l (phaseBInner e t cpm s q) h1.2 h2.2
    rw [List.foldl_cons, ih, inner_dc_sum]
    have hterm : ∀ p ∈ l,
        dcAt (phaseBInner e t cpm s q).dc p.1 - innerD e t cpm (phaseBInner e t cpm s q) p =
          dcAt s.dc p.1 - innerD e t cpm s p := by
      intro p hmem
      have hne2 : p.2 ≠ q.2 := fun he =>
        h2.1 (he ▸ List.mem_map_of_mem Prod.snd hmem)
      have hne1 : p.1 ≠ q.1 := fun he =>
        h1.1 (he ▸ List.mem_map_of_mem Prod.fst hmem)
      rw [inner_dc_ne e t cpm s q p.1 hne1,
        innerD_congr e t cpm p (inner_usage_ne e t cpm s q p.2 hne2)
          (inner_dc_ne e t cpm s q p.1 hne1)]
    rw [sumQ_map_congr hterm, List.map_cons, sumQ]
    ring

/-! ## Lemmas: one Phase-B iteration -/

theorem sumQ_map_zero {α : Type} : ∀ (l : List α), sumQ (l.map (fun _ => (0 : ℚ))) = 0
  | [] => rfl
  | x :: xs => by rw [List.map_cons, sumQ, sumQ_map_zero xs, add_zero]

theorem sumQ_map_nonneg {α : Type} (f : α → ℚ) (l : List α)
    (h : ∀ a ∈ l, 0 ≤ f a) : 0 ≤ sumQ (l.map f) := by
  have := sumQ_map_le (fun _ => (0 : ℚ)) f l h
  rwa [sumQ_map_zero] at this

theorem totalBill30_eq (dc : List ℚ) : totalBill30 dc = 30 * sumQ dc := by
  rw [totalBill30]
  have h1 : sumQ (dc.map fun d => d * 30) = sumQ (dc.map fun d => 30 * d) :=
    sumQ_map_congr (fun a _ => mul_comm a 30)
  have h2 : sumQ (dc.map fun d => 30 * d) = 30 * sumQ (dc.map fun d => d) := by
    simpa using sumQ_map_mul_left 30 (fun d => d) dc
  rw [h1, h2, List.map_id']

theorem totalCpm_eq (bal : List (ℕ × ℕ)) (cpm : ℕ × ℕ → ℚ) (apps : List Appliance) :
    totalCpm bal cpm apps =
      sumQ (bal.map (fun p => if 0 < usageAt apps p.2 then cpm p else 0)) := by
  rw [totalCpm, sumQ_filter_map]
  exact sumQ_map_congr (fun p _ => by by_cases h : 0 < usageAt apps p.2 <;> simp [h])

theorem mtr_eq (e c t : ℚ) (hc : c ≠ 0) : e * (c / t) / c = e / t := by
  rw [mul_div_assoc', div_div, mul_comm t c, ← div_div, mul_div_cancel_right₀ _ hc]

theorem iter_inv (T : ℚ) (bal : List (ℕ × ℕ)) (cpm : ℕ × ℕ → ℚ) (s : BState)
    (h1 : (bal.map Prod.fst).Nodup) (h2 : (bal.map Prod.snd).Nodup)
    (hinv : InvB bal cpm s) : InvB bal cpm (phaseBIter T bal cpm s) := by
  intro p hp hpos
  have hm := foldB_mem (totalBill30 s.dc - T) (totalCpm bal cpm s.apps) cpm bal s h1 h2 p hp
  rw [phaseBIter] at hpos ⊢
  rw [hm.1, hm.2]
  rw [hm.1] at hpos
  rw [innerU] at hpos ⊢
  rw [innerD]
  split_ifs at hpos ⊢ with hu hc hupd
  · exact absurd hpos (by linarith)
  · exact hinv p hp hpos
  · have hu0 : (0 : ℚ) < usageAt s.apps p.2 := lt_of_not_le hu
    rw [hinv p hp hu0, mul_assoc, mul_div_assoc', mul_div_cancel_left₀ _ (ne_of_gt hu0)]
  · exact hinv p hp hpos

theorem iter_usage_le (T : ℚ) (bal : List (ℕ × ℕ)) (cpm : ℕ × ℕ → ℚ) (s : BState) (i : ℕ) :
    usageAt (phaseBIter T bal cpm s).apps i ≤ usageAt s.apps i :=
  foldB_usage_le _ _ cpm bal s i

theorem iter_usage_nonneg (T : ℚ) (bal : List (ℕ × ℕ)) (cpm : ℕ × ℕ → ℚ) (s : BState)
    (i : ℕ) (h : 0 ≤ usageAt s.apps i) :
    0 ≤ usageAt (phaseBIter T bal cpm s).apps i :=
  foldB_usage_nonneg _ _ cpm bal s i h

theorem iter_total_le (T : ℚ) (bal : List (ℕ × ℕ)) (cpm : ℕ × ℕ → ℚ) (s : BState)
    (h1 : (bal.map Prod.fst).Nodup) (h2 : (bal.map Prod.snd).Nodup)
    (hinv : InvB bal cpm s) :
    totalBill30 (phaseBIter T bal cpm s).dc ≤ totalBill30 s.dc := by
  have hs := foldB_sum (totalBill30 s.dc - T) (totalCpm bal cpm s.apps) cpm bal s h1 h2
  have hR : 0 ≤ sumQ (bal.map (fun p => dcAt s.dc p.1 -
      innerD (totalBill30 s.dc - T) (totalCpm bal cpm s.apps) cpm s p)) := by
    refine sumQ_map_nonneg _ bal (fun p hp => ?_)
    rw [innerD]
    split_ifs with hu hc hupd
    · linarith
    · linarith
    · have hu0 : (0 : ℚ) < usageAt s.apps p.2 := lt_of_not_le hu
      have hd : dcAt s.dc p.1 = cpm p * usageAt s.apps p.2 := hinv p hp hu0
      have hdpos : 0 < dcAt s.dc p.1 := by
        rw [hd]; exact mul_pos (lt_of_not_le hc) hu0
      have hfrac : max (usageAt s.apps p.2 -
          (totalBill30 s.dc - T) * (cpm p / totalCpm bal cpm s.apps) / cpm p) 0 /
            usageAt s.apps p.2 ≤ 1 :=
        (div_le_one hu0).mpr (le_of_lt hupd)
      nlinarith
    · linarith
  have hs2 : sumQ (phaseBIter T bal cpm s).dc =
      sumQ s.dc - sumQ (bal.map (fun p => dcAt s.dc p.1 -
        innerD (totalBill30 s.dc - T) (totalCpm bal cpm s.apps) cpm s p)) := hs
  have h30a := totalBill30_eq (phaseBIter T bal cpm s).dc
  have h30b := totalBill30_eq s.dc
  linarith

theorem iter_dichotomy (T : ℚ) (bal : List (ℕ × ℕ)) (cpm : ℕ × ℕ → ℚ) (s : BState)
    (h1 : (bal.map Prod.fst).Nodup) (h2 : (bal.map Prod.snd).Nodup)
    (hinv : InvB bal cpm s)
    (hover : T < totalBill30 s.dc) (ht : 0 < totalCpm bal cpm s.apps) :
    totalBill30 (phaseBIter T bal cpm s).dc ≤ T ∨
      posCount bal (phaseBIter T bal cpm s).apps < posCount bal s.apps := by
  have hig : (0 : ℚ) < (totalBill30 s.dc - T) / totalCpm bal cpm s.apps :=
    div_pos (by linarith) ht
  by_cases hcl : ∃ p ∈ bal, 0 < usageAt s.apps p.2 ∧ 0 < cpm p ∧
      usageAt s.apps p.2 ≤ (totalBill30 s.dc - T) / totalCpm bal cpm s.apps
  · right
    obtain ⟨p, hp, hu, hc, hle⟩ := hcl
    have hm := foldB_mem (totalBill30 s.dc - T) (totalCpm bal cpm s.apps) cpm bal s h1 h2 p hp
    have hzero : usageAt (phaseBIter T bal cpm s).apps p.2 = 0 := by
      rw [phaseBIter, hm.1, innerU, if_neg (not_le.mpr hu), if_neg (not_le.mpr hc),
        mtr_eq _ _ _ (ne_of_gt hc), max_eq_right (by linarith), if_pos hu]
    rw [posCount, posCount]
    refine filter_length_strict _ _ bal (fun q hq hnew => ?_) p hp
      (by simpa using hu) (by simp [hzero])
    have hle2 := iter_usage_le T bal cpm s q.2
    simp only [decide_eq_true_eq] at hnew ⊢
    linarith
  · left
    push_neg at hcl
    have hs := foldB_sum (totalBill30 s.dc - T) (totalCpm bal cpm s.apps) cpm bal s h1 h2
    have hterm : ∀ p ∈ bal,
        (if 0 < usageAt s.apps p.2 then cpm p else 0) *
            ((totalBill30 s.dc - T) / totalCpm bal cpm s.apps) ≤
          dcAt s.dc p.1 -
            innerD (totalBill30 s.dc - T) (totalCpm bal cpm s.apps) cpm s p := by
      intro p hp
      rw [innerD]
      by_cases hu : usageAt s.apps p.2 ≤ 0
      · rw [if_pos hu, if_neg (not_lt.mpr hu), zero_mul, sub_self]
      · have hu0 : (0 : ℚ) < usageAt s.apps p.2 := lt_of_not_le hu
        rw [if_neg hu, if_pos hu0]
        by_cases hc : cpm p ≤ 0
        · rw [if_pos hc, sub_self]
          exact mul_nonpos_of_nonpos_of_nonneg hc (le_of_lt hig)
        · have hc0 : (0 : ℚ) < cpm p := lt_of_not_le hc
          rw [if_neg hc]
          have hgt := hcl p hp hu0 hc0
          have hmx : max (usageAt s.apps p.2 -
              (totalBill30 s.dc - T) * (cpm p / totalCpm bal cpm s.apps) / cpm p) 0 =
              usageAt s.apps p.2 - (totalBill30 s.dc - T) / totalCpm bal cpm s.apps := by
            rw [mtr_eq _ _ _ (ne_of_gt hc0)]
            exact max_eq_left (by linarith)
          have hupd : max (usageAt s.apps p.2 -
              (totalBill30 s.dc - T) * (cpm p / totalCpm bal cpm s.apps) / cpm p) 0 <
              usageAt s.apps p.2 := by
            rw [hmx]; linarith
          rw [if_pos hupd, hmx, hinv p hp hu0]
          have key : cpm p * usageAt s.apps p.2 * ((usageAt s.apps p.2 -
              (totalBill30 s.dc - T) / totalCpm bal cpm s.apps) / usageAt s.apps p.2) =
              cpm p * (usageAt s.apps p.2 -
                (totalBill30 s.dc - T) / totalCpm bal cpm s.apps) := by
            rw [mul_assoc, mul_div_assoc', mul_div_cancel_left₀ _ (ne_of_gt hu0)]
          rw [key]
          have expand : cpm p * usageAt s.apps p.2 - cpm p * (usageAt s.apps p.2 -
              (totalBill30 s.dc - T) / totalCpm bal cpm s.apps) =
              cpm p * ((totalBill30 s.dc - T) / totalCpm bal cpm s.apps) := by ring
          rw [expand]
    have hsumle := sumQ_map_le _ _ bal hterm
    have hlhs : sumQ (bal.map (fun p =>
        (if 0 < usageAt s.apps p.2 then cpm p else 0) *
          ((totalBill30 s.dc - T) / totalCpm bal cpm s.apps))) =
        totalBill30 s.dc - T := by
      have hcomm : sumQ (bal.map (fun p =>
          (if 0 < usageAt s.apps p.2 then cpm p else 0) *
            ((totalBill30 s.dc - T) / totalCpm bal cpm s.apps))) =
          sumQ (bal.map (fun p =>
            ((totalBill30 s.dc - T) / totalCpm bal cpm s.apps) *
              (if 0 < usageAt s.apps p.2 then cpm p else 0))) :=
        sumQ_map_congr (fun p _ => mul_comm _ _)
      rw [hcomm, sumQ_map_mul_left, ← totalCpm_eq, div_mul_cancel₀ _ (ne_of_gt ht)]
    rw [hlhs] at hsumle
    have hs2 : sumQ (phaseBIter T bal cpm s).dc =
        sumQ s.dc - sumQ (bal.map (fun p => dcAt s.dc p.1 -
          innerD (totalBill30 s.dc - T) (totalCpm bal cpm s.apps) cpm s p)) := hs
    have h30a := totalBill30_eq (phaseBIter T bal cpm s).dc
    have h30b := totalBill30_eq s.dc
    linarith

/-! ## Lemmas: the Phase-B while loop -/

theorem loop_exit_cond (T : ℚ) (bal : List (ℕ × ℕ)) (cpm : ℕ × ℕ → ℚ) :
    ∀ (n : ℕ) (s s2 : BState), phaseBLoop T bal cpm n s = some s2 →
      totalBill30 s2.dc ≤ T ∨ totalCpm bal cpm s2.apps ≤ 0
  | 0, s, s2, h => by
    rw [phaseBLoop] at h
    split_ifs at h with h1
    · exact Or.inl (Option.some_inj.mp h ▸ h1)
  | n + 1, s, s2, h => by
    rw [phaseBLoop] at h
    split_ifs at h with h1 h2
    · exact Or.inl (Option.some_inj.mp h ▸ h1)
    · exact Or.inr (Option.some_inj.mp h ▸ h2)
    · exact loop_exit_cond T bal cpm n _ s2 h

theorem posCount_zero_tcpm {bal : List (ℕ × ℕ)} {cpm : ℕ × ℕ → ℚ} {apps : List Appliance}
    (h : posCount bal apps = 0) : totalCpm bal cpm apps ≤ 0 := by
  rw [posCount] at h
  rw [totalCpm, List.length_eq_zero.mp h]
  exact le_refl 0

theorem loop_term (T : ℚ) (bal : List (ℕ × ℕ)) (cpm : ℕ × ℕ → ℚ)
    (h1 : (bal.map Prod.fst).Nodup) (h2 : (bal.map Prod.snd).Nodup) :
    ∀ (n : ℕ) (s : BState), InvB bal cpm s → posCount bal s.apps ≤ n →
      ∃ s2, phaseBLoop T bal cpm (n + 1) s = some s2
  | 0, s, hinv, hpc => by
    rw [phaseBLoop]
    by_cases hb : totalBill30 s.dc ≤ T
    · exact ⟨s, if_pos hb⟩
    · rw [if_neg hb]
      by_cases hc : totalCpm bal cpm s.apps ≤ 0
      · exact ⟨s, if_pos hc⟩
      · exact absurd (posCount_zero_tcpm (Nat.le_zero.mp hpc)) hc
  | n + 1, s, hinv, hpc => by
    rw [phaseBLoop]
    by_cases hb : totalBill30 s.dc ≤ T
    · exact ⟨s, if_pos hb⟩
    · rw [if_neg hb]
      by_cases hc : totalCpm bal cpm s.apps ≤ 0
      · exact ⟨s, if_pos hc⟩
      · rw [if_neg hc]
        have hinv2 := iter_inv T bal cpm s h1 h2 hinv
        rcases iter_dichotomy T bal cpm s h1 h2 hinv (lt_of_not_le hb) (lt_of_not_le hc) with
          hdone | hdec
        · refine ⟨phaseBIter T bal cpm s, ?_⟩
          rw [phaseBLoop, if_pos hdone]
        · exact loop_term T bal cpm h1 h2 n (phaseBIter T bal cpm s) hinv2
            (Nat.le_of_lt_succ (Nat.lt_of_lt_of_le hdec hpc))

theorem loop_usage_le (T : ℚ) (bal : List (ℕ × ℕ)) (cpm : ℕ × ℕ → ℚ) :
    ∀ (n : ℕ) (s s2 : BState), phaseBLoop T bal cpm n s = some s2 →
      ∀ i, usageAt s2.apps i ≤ usageAt s.apps i
  | 0, s, s2, h, i => by
    rw [phaseBLoop] at h
    split_ifs at h with h1
    · rw [← Option.some_inj.mp h]
  | n + 1, s, s2, h, i => by
    rw [phaseBLoop] at h
    split_ifs at h with h1 h2
    · rw [← Option.some_inj.mp h]
    · rw [← Option.some_inj.mp h]
    · exact le_trans (loop_usage_le T bal cpm n _ s2 h i) (iter_usage_le T bal cpm s i)

theorem loop_usage_nonneg (T : ℚ) (bal : List (ℕ × ℕ)) (cpm : ℕ × ℕ → ℚ) :
    ∀ (n : ℕ) (s s2 : BState), phaseBLoop T bal cpm n s = some s2 →
      ∀ i, 0 ≤ usageAt s.apps i → 0 ≤ usageAt s2.apps i
  | 0, s, s2, h, i, h0 => by
    rw [phaseBLoop] at h
    split_ifs at h with h1
    · rw [← Option.some_inj.mp h]; exact h0
  | n + 1, s, s2, h, i, h0 => by
    rw [phaseBLoop] at h
    split_ifs at h with h1 h2
    · rw [← Option.some_inj.mp h]; exact h0
    · rw [← Option.some_inj.mp h]; exact h0
    · exact loop_usage_nonneg T bal cpm n _ s2 h i (iter_usage_nonneg T bal cpm s i h0)

theorem iter_getL_not_mem (T : ℚ) (bal : List (ℕ × ℕ)) (cpm : ℕ × ℕ → ℚ) (s : BState)
    (i : ℕ) (h : i ∉ bal.map Prod.snd) :
    getL (phaseBIter T bal cpm s).apps i = getL s.apps i :=
  foldB_getL_not_mem _ _ cpm bal s i h

theorem iter_adj_not_mem (T : ℚ) (bal : List (ℕ × ℕ)) (cpm : ℕ × ℕ → ℚ) (s : BState)
    (k : ℕ) (h : k ∉ bal.map Prod.snd) :
    lookupAdj (phaseBIter T bal cpm s).adj k = lookupAdj s.adj k :=
  foldB_adj_not_mem _ _ cpm bal s k h

theorem loop_getL_not_mem (T : ℚ) (bal : List (ℕ × ℕ)) (cpm : ℕ × ℕ → ℚ) :
    ∀ (n : ℕ) (s s2 : BState), phaseBLoop T bal cpm n s = some s2 →
      ∀ i, i ∉ bal.map Prod.snd → getL s2.apps i = getL s.apps i
  | 0, s, s2, h, i, hi => by
    rw [phaseBLoop] at h
    split_ifs at h with h1
    · rw [← Option.some_inj.mp h]
  | n + 1, s, s2, h, i, hi => by
    rw [phaseBLoop] at h
    split_ifs at h with h1 h2
    · rw [← Option.some_inj.mp h]
    · rw [← Option.some_inj.mp h]
    · rw [loop_getL_not_mem T bal cpm n _ s2 h i hi, iter_getL_not_mem T bal cpm s i hi]

theorem loop_adj_not_mem (T : ℚ) (bal : List (ℕ × ℕ)) (cpm : ℕ × ℕ → ℚ) :
    ∀ (n : ℕ) (s s2 : BState), phaseBLoop T bal cpm n s = some s2 →
      ∀ k, k ∉ bal.map Prod.snd → lookupAdj s2.adj k = lookupAdj s.adj k
  | 0, s, s2, h, k, hk => by
    rw [phaseBLoop] at h
    split_ifs at h with h1
    · rw [← Option.some_inj.mp h]
  | n + 1, s, s2, h, k, hk => by
    rw [phaseBLoop] at h
    split_ifs at h with h1 h2
    · rw [← Option.some_inj.mp h]
    · rw [← Option.some_inj.mp h]
    · rw [loop_adj_not_mem T bal cpm n _ s2 h k hk, iter_adj_not_mem T bal cpm s k hk]

/-! ## Lemmas: the guarded-iteration view of the loop -/

theorem run_guard_comm (T : ℚ) (bal : List (ℕ × ℕ)) (cpm : ℕ × ℕ → ℚ) :
    ∀ (k : ℕ) (s : BState),
      phaseBRun T bal cpm (k + 1) s = phaseBGuard T bal cpm (phaseBRun T bal cpm k s)
  | 0, s => rfl
  | k + 1, s => by
    rw [phaseBRun, run_guard_comm T bal cpm k (phaseBGuard T bal cpm s)]
    rfl

theorem guard_inv (T : ℚ) (bal : List (ℕ × ℕ)) (cpm : ℕ × ℕ → ℚ) (s : BState)
    (h1 : (bal.map Prod.fst).Nodup) (h2 : (bal.map Prod.snd).Nodup)
    (hinv : InvB bal cpm s) : InvB bal cpm (phaseBGuard T bal cpm s) := by
  rw [phaseBGuard]
  split_ifs
  · exact hinv
  · exact hinv
  · exact iter_inv T bal cpm s h1 h2 hinv

theorem guard_total_le (T : ℚ) (bal : List (ℕ × ℕ)) (cpm : ℕ × ℕ → ℚ) (s : BState)
    (h1 : (bal.map Prod.fst).Nodup) (h2 : (bal.map Prod.snd).Nodup)
    (hinv : InvB bal cpm s) :
    totalBill30 (phaseBGuard T bal cpm s).dc ≤ totalBill30 s.dc := by
  rw [phaseBGuard]
  split_ifs
  · exact le_refl _
  · exact le_refl _
  · exact iter_total_le T bal cpm s h1 h2 hinv

theorem run_inv (T : ℚ) (bal : List (ℕ × ℕ)) (cpm : ℕ × ℕ → ℚ)
    (h1 : (bal.map Prod.fst).Nodup) (h2 : (bal.map Prod.snd).Nodup) :
    ∀ (k : ℕ) (s : BState), InvB bal cpm s → InvB bal cpm (phaseBRun T bal cpm k s)
  | 0, s, hinv => hinv
  | k + 1, s, hinv =>
    run_inv T bal cpm h1 h2 k (phaseBGuard T bal cpm s)
      (guard_inv T bal cpm s h1 h2 hinv)

/-- cost_per_minute as cached at lines 137-144 makes the invariant hold
at loop entry. -/
theorem cpmBal_inv (apps : List Appliance) (dc : List ℚ) (adj0 : List (ℕ × AdjRec))
    (bal : List (ℕ × ℕ)) : InvB bal (cpmBalAt apps dc) ⟨apps, dc, adj0⟩ := by
  intro p _ hpos
  show dcAt dc p.1 = cpmBalAt apps dc p * usageAt apps p.2
  rw [cpmBalAt, if_pos hpos, div_mul_cancel₀ _ (ne_of_gt hpos)]

/-! ## Lemmas: Phase A (maximum usage for non-balancing appliances) -/

theorem getL_mem {α : Type} [Inhabited α] :
    ∀ (l : List α) (i : ℕ), i < l.length → getL l i ∈ l
  | x :: xs, 0, _ => List.mem_cons_self x xs
  | x :: xs, n + 1, h =>
    List.mem_cons_of_mem x (getL_mem xs n (Nat.lt_of_succ_lt_succ h))

theorem stepA_usage_le (cpmO : ℕ × ℕ → ℚ) (tO nbb : ℚ) (s : BState) (p : ℕ × ℕ)
    (i : ℕ) : usageAt (phaseAStep cpmO tO nbb s p).apps i ≤ usageAt s.apps i := by
  rw [phaseAStep]
  split_ifs with h1 h2 h3
  · exact le_refl _
  · exact le_refl _
  · dsimp only
    by_cases hi : i = p.2
    · rw [hi, usageAt_setUsage_self _ (usageAt_pos_lt (lt_of_not_le h1))]
      exact le_of_lt h3
    · rw [usageAt_setUsage_ne _ _ _ _ hi]
  · exact le_refl _

theorem stepA_usage_nonneg (cpmO : ℕ × ℕ → ℚ) (tO nbb : ℚ) (s : BState) (p : ℕ × ℕ)
    (i : ℕ) (htO : 0 ≤ tO) (hnbb : 0 ≤ nbb) (h0 : 0 ≤ usageAt s.apps i) :
    0 ≤ usageAt (phaseAStep cpmO tO nbb s p).apps i := by
  rw [phaseAStep]
  split_ifs with h1 h2 h3
  · exact h0
  · exact h0
  · dsimp only
    by_cases hi : i = p.2
    · rw [hi, usageAt_setUsage_self _ (usageAt_pos_lt (lt_of_not_le h1))]
      refine le_min (le_of_lt (lt_of_not_le h1))
        (div_nonneg (mul_nonneg (div_nonneg (le_of_lt (lt_of_not_le h2)) htO)
          (div_nonneg hnbb (by norm_num))) (le_of_lt (lt_of_not_le h2)))
    · rw [usageAt_setUsage_ne _ _ _ _ hi]
      exact h0
  · exact h0

theorem stepA_getL_ne (cpmO : ℕ × ℕ → ℚ) (tO nbb : ℚ) (s : BState) (p : ℕ × ℕ)
    (i : ℕ) (h : i ≠ p.2) :
    getL (phaseAStep cpmO tO nbb s p).apps i = getL s.apps i := by
  rw [phaseAStep]
  split_ifs <;> simp [getL_setUsage_ne _ _ _ _ h]

theorem stepA_adj_ne (cpmO : ℕ × ℕ → ℚ) (tO nbb : ℚ) (s : BState) (p : ℕ × ℕ)
    (k : ℕ) (h : k ≠ p.2) :
    lookupAdj (phaseAStep cpmO tO nbb s p).adj k = lookupAdj s.adj k := by
  rw [phaseAStep]
  split_ifs <;> simp [lookupAdj_upsert_ne _ _ _ _ h]

theorem foldA_usage_le (cpmO : ℕ × ℕ → ℚ) (tO nbb : ℚ) :
    ∀ (l : List (ℕ × ℕ)) (s : BState) (i : ℕ),
      usageAt (l.foldl (phaseAStep cpmO tO nbb) s).apps i ≤ usageAt s.apps i
  | [], _, _ => le_refl _
  | p :: l, s, i => by
    rw [List.foldl_cons]
    exact le_trans (foldA_usage_le cpmO tO nbb l _ i) (stepA_usage_le cpmO tO nbb s p i)

theorem foldA_usage_nonneg (cpmO : ℕ × ℕ → ℚ) (tO nbb : ℚ) (htO : 0 ≤ tO)
    (hnbb : 0 ≤ nbb) :
    ∀ (l : List (ℕ × ℕ)) (s : BState) (i : ℕ), 0 ≤ usageAt s.apps i →
      0 ≤ usageAt (l.foldl (phaseAStep cpmO tO nbb) s).apps i
  | [], _, _, h0 => h0
  | p :: l, s, i, h0 => by
    rw [List.foldl_cons]
    exact foldA_usage_nonneg cpmO tO nbb htO hnbb l _ i
      (stepA_usage_nonneg cpmO tO nbb s p i htO hnbb h0)

theorem foldA_getL_frame (cpmO : ℕ × ℕ → ℚ) (tO nbb : ℚ) :
    ∀ (l : List (ℕ × ℕ)) (s : BState) (i : ℕ), (∀ p ∈ l, p.2 ≠ i) →
      getL (l.foldl (phaseAStep cpmO tO nbb) s).apps i = getL s.apps i
  | [], _, _, _ => rfl
  | p :: l, s, i, h => by
    rw [List.foldl_cons,
      foldA_getL_frame cpmO tO nbb l _ i (fun q hq => h q (List.mem_cons_of_mem p hq)),
      stepA_getL_ne cpmO tO nbb s p i (Ne.symm (h p (List.mem_cons_self p l)))]

theorem foldA_adj_frame (cpmO : ℕ × ℕ → ℚ) (tO nbb : ℚ) :
    ∀ (l : List (ℕ × ℕ)) (s : BState) (k : ℕ), (∀ p ∈ l, p.2 ≠ k) →
      lookupAdj (l.foldl (phaseAStep cpmO tO nbb) s).adj k = lookupAdj s.adj k
  | [], _, _, _ => rfl
  | p :: l, s, k, h => by
    rw [List.foldl_cons,
      foldA_adj_frame cpmO tO nbb l _ k (fun q hq => h q (List.mem_cons_of_mem p hq)),
      stepA_adj_ne cpmO tO nbb s p k (Ne.symm (h p (List.mem_cons_self p l)))]

theorem calculate_monthly_bill_fst (dc : List ℚ) :
    (calculate_monthly_bill dc).1 = 3 * sumQ dc := by
  show sumQ (dc.map fun d => d * 30 / 10) = 3 * sumQ dc
  have h1 : sumQ (dc.map fun d => d * 30 / 10) = sumQ (dc.map fun d => 3 * d) :=
    sumQ_map_congr (fun a _ => by ring)
  have h2 : sumQ (dc.map fun d => 3 * d) = 3 * sumQ (dc.map fun d => d) :=
    sumQ_map_mul_left 3 (fun d => d) dc
  rw [h1, h2, List.map_id']

theorem calculate_monthly_bill_snd (dc : List ℚ) :
    (calculate_monthly_bill dc).2 = dc.map (fun d => 3 * d) :=
  List.map_congr_left (fun a _ => by ring)

theorem tcpmOthers_nonneg (apps : List Appliance) (dc : List ℚ) (valid : List ℕ) :
    0 ≤ tcpmOthers apps dc valid := by
  rw [tcpmOthers]
  refine sumQ_map_nonneg _ _ (fun p hp => ?_)
  have hmem := (List.mem_filter.mp hp).2
  simp only [decide_eq_true_eq] at hmem
  exact le_of_lt hmem

/-! ## Lemmas: adjust_usage_for_threshold -/

theorem adjStep_usage_ne (rf : ℚ) (cpm : ℕ × ℚ × ℕ → ℚ) (s : BState)
    (q : ℕ × ℚ × ℕ) (i : ℕ) (h : i ≠ q.2.2) :
    usageAt (adjStep rf cpm s q).apps i = usageAt s.apps i := by
  rw [adjStep]
  split_ifs <;> simp [usageAt_setUsage_ne _ _ _ _ h]

theorem adjFold_usage_not_mem (rf : ℚ) (cpm : ℕ × ℚ × ℕ → ℚ) :
    ∀ (l : List (ℕ × ℚ × ℕ)) (s : BState) (i : ℕ),
      i ∉ l.map (fun q => q.2.2) →
      usageAt (l.foldl (adjStep rf cpm) s).apps i = usageAt s.apps i
  | [], _, _, _ => rfl
  | q :: l, s, i, h => by
    have h1 : i ∉ l.map (fun q => q.2.2) := fun hm => h (List.mem_cons_of_mem _ hm)
    have h2 : i ≠ q.2.2 := fun he => h (by rw [List.map_cons, he]; exact List.mem_cons_self _ _)
    rw [List.foldl_cons, adjFold_usage_not_mem rf cpm l _ i h1, adjStep_usage_ne rf cpm s q i h2]

theorem adjStep_half (rf : ℚ) (cpm : ℕ × ℚ × ℕ → ℚ) (s : BState) (q : ℕ × ℚ × ℕ)
    (hu : 0 < usageAt s.apps q.2.2) (hc : 0 < cpm q)
    (hle : q.2.1 * rf / cpm q ≤ usageAt s.apps q.2.2 * (1 / 2)) :
    usageAt (adjStep rf cpm s q).apps q.2.2 = usageAt s.apps q.2.2 * (1 / 2) := by
  rw [adjStep, if_neg (not_le.mpr hc), max_eq_right hle, if_pos (by linarith)]
  dsimp only
  exact usageAt_setUsage_self _ (usageAt_pos_lt hu)

theorem adjFold_half (rf : ℚ) (cpm : ℕ × ℚ × ℕ → ℚ) :
    ∀ (l : List (ℕ × ℚ × ℕ)) (s : BState),
      (l.map (fun q => q.2.2)).Nodup →
      (∀ q ∈ l, 0 < usageAt s.apps q.2.2 ∧ 0 < cpm q ∧
        q.2.1 * rf / cpm q ≤ usageAt s.apps q.2.2 * (1 / 2)) →
      ∀ q ∈ l, usageAt (l.foldl (adjStep rf cpm) s).apps q.2.2 =
        usageAt s.apps q.2.2 * (1 / 2)
  | [], _, _, _, q, hq => absurd hq (List.not_mem_nil q)
  | q0 :: l, s, hnd, hcond, q, hq => by
    rw [List.map_cons, List.nodup_cons] at hnd
    rcases List.mem_cons.mp hq with rfl | hmem
    · obtain ⟨hu, hc, hle⟩ := hcond q (List.mem_cons_self q l)
      rw [List.foldl_cons, adjFold_usage_not_mem rf cpm l _ _ hnd.1,
        adjStep_half rf cpm s q hu hc hle]
    · have hcond2 : ∀ r ∈ l, 0 < usageAt (adjStep rf cpm s q0).apps r.2.2 ∧
          0 < cpm r ∧ r.2.1 * rf / cpm r ≤ usageAt (adjStep rf cpm s q0).apps r.2.2 * (1 / 2) := by
        intro r hr
        have hfr : usageAt (adjStep rf cpm s q0).apps r.2.2 = usageAt s.apps r.2.2 :=
          adjStep_usage_ne rf cpm s q0 r.2.2
            (fun he => hnd.1 (he ▸ List.mem_map_of_mem _ hr))
        rw [hfr]
        exact hcond r (List.mem_cons_of_mem q0 hr)
      have hframe : usageAt (adjStep rf cpm s q0).apps q.2.2 = usageAt s.apps q.2.2 :=
        adjStep_usage_ne rf cpm s q0 q.2.2
          (fun he => hnd.1 (he ▸ List.mem_map_of_mem _ hmem))
      rw [List.foldl_cons, adjFold_half rf cpm l _ hnd.2 hcond2 q hmem, hframe]

theorem enumFrom_map_sndsnd {α β : Type} :
    ∀ (n : ℕ) (l : List (α × β)), (l.enumFrom n).map (fun q => q.2.2) = l.map Prod.snd
  | _, [] => rfl
  | n, x :: xs => by
    rw [List.enumFrom, List.map_cons, List.map_cons, enumFrom_map_sndsnd (n + 1) xs]

theorem zip_map_snd {α β : Type} :
    ∀ (l1 : List α) (l2 : List β), l1.length = l2.length →
      (l1.zip l2).map Prod.snd = l2
  | [], [], _ => rfl
  | [], y :: ys, h => by simp at h
  | x :: xs, [], h => by simp at h
  | x :: xs, y :: ys, h => by
    simp only [List.length_cons, add_left_inj] at h
    rw [List.zip_cons_cons, List.map_cons, zip_map_snd xs ys h]

theorem mem_enumFrom_snd {α : Type} :
    ∀ (n : ℕ) (l : List α) (q : ℕ × α), q ∈ l.enumFrom n → q.2 ∈ l
  | _, [], q, h => absurd h (List.not_mem_nil q)
  | n, x :: xs, q, h => by
    rw [List.enumFrom] at h
    rcases List.mem_cons.mp h with rfl | h2
    · exact List.mem_cons_self _ _
    · exact List.mem_cons_of_mem _ (mem_enumFrom_snd (n + 1) xs q h2)

theorem mem_zip_left {α β : Type} :
    ∀ (l1 : List α) (l2 : List β) (q : α × β), q ∈ l1.zip l2 → q.1 ∈ l1
  | [], l2, q, h => by
    simp [List.zip] at h
  | x :: xs, [], q, h => by
    rw [List.zip_nil_right] at h
    exact absurd h (List.not_mem_nil q)
  | x :: xs, y :: ys, q, h => by
    rw [List.zip_cons_cons] at h
    rcases List.mem_cons.mp h with rfl | h2
    · exact List.mem_cons_self _ _
    · exact List.mem_cons_of_mem _ (mem_zip_left xs ys q h2)

theorem mem_zip_right {α β : Type} :
    ∀ (l1 : List α) (l2 : List β) (q : α × β), q ∈ l1.zip l2 → q.2 ∈ l2
  | [], l2, q, h => by
    simp [List.zip] at h
  | x :: xs, [], q, h => by
    rw [List.zip_nil_right] at h
    exact absurd h (List.not_mem_nil q)
  | x :: xs, y :: ys, q, h => by
    rw [List.zip_cons_cons] at h
    rcases List.mem_cons.mp h with rfl | h2
    · exact List.mem_cons_self _ _
    · exact List.mem_cons_of_mem _ (mem_zip_right xs ys q h2)

/-! ## Lemmas: finalProduct apply_threshold frame properties -/

theorem getL_map_lt {α β : Type} [Inhabited α] [Inhabited β] (f : α → β) :
    ∀ (l : List α) (i : ℕ), i < l.length → getL (l.map f) i = f (getL l i)
  | x :: xs, 0, _ => rfl
  | x :: xs, n + 1, h => getL_map_lt f xs n (Nat.lt_of_succ_lt_succ h)

theorem fpSetCph_fieldsEq (apps : List FPAppliance) (i : ℕ) :
    fpFieldsEq (getL apps i) (getL (fpSetCph apps) i) := by
  by_cases h : i < apps.length
  · rw [fpSetCph, getL_map_lt _ apps i h]
    exact ⟨rfl, rfl, rfl, rfl, rfl⟩
  · have hge := Nat.le_of_not_lt h
    rw [fpSetCph, getL_of_ge apps i hge,
      getL_of_ge (List.map _ apps) i (by simpa using hge)]
    exact ⟨rfl, rfl, rfl, rfl, rfl⟩

theorem fpUsageBody_ne (pc : String → ℚ → ℚ → ℚ) (e t : ℚ) (cur : List FPAppliance)
    (j i : ℕ) (h : i ≠ j) : getL (fpUsageBody pc e t cur j) i = getL cur i := by
  rw [fpUsageBody]
  split_ifs <;> simp [getL_setL_ne _ _ _ _ h]

theorem fpUsageBody_notHigh (pc : String → ℚ → ℚ → ℚ) (e t : ℚ)
    (cur : List FPAppliance) (i : ℕ)
    (h : highCostTypes.contains (getL cur i).deviceType = false) :
    fpUsageBody pc e t cur i = cur := by
  rw [fpUsageBody, if_pos (by rw [h]; rfl)]

theorem fpUsageFold_frame (pc : String → ℚ → ℚ → ℚ) (e t : ℚ) :
    ∀ (order : List ℕ) (cur : List FPAppliance) (i : ℕ),
      highCostTypes.contains (getL cur i).deviceType = false →
      getL (order.foldl (fpUsageBody pc e t) cur) i = getL cur i
  | [], _, _, _ => rfl
  | j :: order, cur, i, h => by
    rw [List.foldl_cons]
    by_cases hij : i = j
    · subst hij
      rw [fpUsageBody_notHigh pc e t cur i h]
      exact fpUsageFold_frame pc e t order cur i h
    · have hstep := fpUsageBody_ne pc e t cur j i hij
      rw [fpUsageFold_frame pc e t order _ i (by rw [hstep]; exact h), hstep]

theorem fpUsageLoop_frame (pc : String → ℚ → ℚ → ℚ) (threshold : ℚ) (order : List ℕ) :
    ∀ (n : ℕ) (apps out : List FPAppliance),
      fpUsageLoop pc threshold order n apps = some out →
      ∀ i, highCostTypes.contains (getL apps i).deviceType = false →
        getL out i = getL apps i
  | 0, apps, out, h, i, hc => by
    rw [fpUsageLoop] at h
    split_ifs at h
    · rw [← Option.some_inj.mp h]
  | n + 1, apps, out, h, i, hc => by
    rw [fpUsageLoop] at h
    split_ifs at h
    · rw [← Option.some_inj.mp h]
    · rw [← Option.some_inj.mp h]
    · have hstep : getL (fpUsageStep pc threshold order apps) i = getL apps i :=
        fpUsageFold_frame pc (fpTotalCost apps - threshold) (fpTcph apps order)
          order apps i hc
      rw [fpUsageLoop_frame pc threshold order n _ out h i (by rw [hstep]; exact hc),
        hstep]

theorem fpPowerBody_ne (pc : String → ℚ → ℚ → ℚ) (e t : ℚ) (cur : List FPAppliance)
    (j i : ℕ) (h : i ≠ j) : getL (fpPowerBody pc e t cur j) i = getL cur i := by
  rw [fpPowerBody]
  split_ifs <;> simp [getL_setL_ne _ _ _ _ h]

theorem fpPowerBody_notHigh (pc : String → ℚ → ℚ → ℚ) (e t : ℚ)
    (cur : List FPAppliance) (i : ℕ)
    (h : highCostTypes.contains (getL cur i).deviceType = false) :
    fpPowerBody pc e t cur i = cur := by
  rw [fpPowerBody, if_pos (by rw [h]; rfl)]

theorem fpPowerFold_frame (pc : String → ℚ → ℚ → ℚ) (e t : ℚ) :
    ∀ (order : List ℕ) (cur : List FPAppliance) (i : ℕ),
      highCostTypes.contains (getL cur i).deviceType = false →
      getL (order.foldl (fpPowerBody pc e t) cur) i = getL cur i
  | [], _, _, _ => rfl
  | j :: order, cur, i, h => by
    rw [List.foldl_cons]
    by_cases hij : i = j
    · subst hij
      rw [fpPowerBody_notHigh pc e t cur i h]
      exact fpPowerFold_frame pc e t order cur i h
    · have hstep := fpPowerBody_ne pc e t cur j i hij
      rw [fpPowerFold_frame pc e t order _ i (by rw [hstep]; exact h), hstep]

/-! ## Claim theorems -/

/-- C1 (corrected), counterexample: a single balanceable Heater with 100
usage minutes and daily cost 1 against threshold 1 is driven to 0 usage
minutes by `balance_appliances` — the Phase-B loop clamps at 0, not at
half the original usage, so the claimed `usage ≥ 0.5 * original` floor
fails. -/
theorem C1_counterexample :
    isBalancing ⟨"Heater", 1000, 100⟩ = true ∧
      (balance_appliances 5 [⟨"Heater", 1000, 100⟩] [1] 1 [0]).map
        (fun s => usageAt s.apps 0) = some 0 ∧
      ¬((0 : ℚ) ≥ 1 / 2 * 100) := by
  refine ⟨by norm_num [isBalancing, balancingTypes], ?_, by norm_num⟩
  have hexc : excListOf [⟨"Heater", 1000, 100⟩] [0] = [] := by decide
  have hoth : othListOf [⟨"Heater", 1000, 100⟩] [0] = [] := by decide
  have hbal : balListOf [⟨"Heater", 1000, 100⟩] [0] = [(0, 0)] := by decide
  have hA : phaseAOut [⟨"Heater", 1000, 100⟩] [1] 1 [0] =
      ⟨[⟨"Heater", 1000, 100⟩], [1], []⟩ := by
    rw [phaseAOut, hoth]; rfl
  have hiter : phaseBIter 1 [(0, 0)] (cpmBalAt [⟨"Heater", 1000, 100⟩] [1])
      ⟨[⟨"Heater", 1000, 100⟩], [1], []⟩ =
      ⟨[⟨"Heater", 1000, 0⟩], [0], [(0, ⟨0, 0, 100, 5 / 3⟩)]⟩ := by
    norm_num [phaseBIter, phaseBInner, totalBill30, totalCpm, List.filter, usageAt,
      dcAt, getL, setL, setUsage, upsert, sumQ, cpmBalAt]
  have hloop : phaseBLoop 1 [(0, 0)] (cpmBalAt [⟨"Heater", 1000, 100⟩] [1]) 5
      ⟨[⟨"Heater", 1000, 100⟩], [1], []⟩ =
      some ⟨[⟨"Heater", 1000, 0⟩], [0], [(0, ⟨0, 0, 100, 5 / 3⟩)]⟩ := by
    show phaseBLoop 1 [(0, 0)] (cpmBalAt [⟨"Heater", 1000, 100⟩] [1]) (4 + 1)
      ⟨[⟨"Heater", 1000, 100⟩], [1], []⟩ = _
    rw [phaseBLoop,
      if_neg (by norm_num [totalBill30, sumQ]),
      if_neg (by norm_num [totalCpm, List.filter, usageAt, getL, sumQ, cpmBalAt, dcAt]),
      hiter]
    show phaseBLoop 1 [(0, 0)] (cpmBalAt [⟨"Heater", 1000, 100⟩] [1]) (3 + 1) _ = _
    rw [phaseBLoop, if_pos (by norm_num [totalBill30, sumQ])]
  have hcall : phaseBCall 5 1 ⟨[⟨"Heater", 1000, 100⟩], [1], []⟩ [(0, 0)] =
      some ⟨[⟨"Heater", 1000, 0⟩], [0], [(0, ⟨0, 0, 100, 5 / 3⟩)]⟩ := by
    rw [phaseBCall, if_neg (by norm_num [totalBill30, sumQ]), if_neg (by simp)]
    exact hloop
  rw [balance_appliances,
    if_neg (by norm_num [calculate_monthly_bill, sumQ]),
    if_neg (by rw [hexc]; norm_num [sumQ]),
    hA, hbal, hcall]
  norm_num [usageAt, getL]

/-- C1 (corrected), amended: after any `balance_appliances` pass on
appliances with non-negative usages, every appliance satisfies
`usage_minutes ≤ original_usage_minutes` and `usage_minutes ≥ 0`; the
`0.5 * original` lower floor of the claim holds in the
`adjust_usage_for_threshold` and `apply_threshold` variants but not in
`balance_appliances`, whose Phase-B loop clamps at zero. -/
theorem C1_amended (fuel : ℕ) (apps : List Appliance) (dc : List ℚ) (T : ℚ)
    (valid : List ℕ) (out : BState)
    (h0 : ∀ a ∈ apps, 0 ≤ a.usage)
    (hout : balance_appliances fuel apps dc T valid = some out) :
    ∀ i, usageAt out.apps i ≤ usageAt apps i ∧ 0 ≤ usageAt out.apps i := by
  have h0' : ∀ i, 0 ≤ usageAt apps i := by
    intro i
    by_cases h : i < apps.length
    · exact h0 _ (getL_mem apps i h)
    · rw [usageAt, getL_of_ge apps i (Nat.le_of_not_lt h)]
      norm_num [default]
  rw [balance_appliances] at hout
  split_ifs at hout with hc1 hc2
  · intro i
    rw [← Option.some_inj.mp hout]
    exact ⟨le_refl _, h0' i⟩
  · intro i
    rw [← Option.some_inj.mp hout]
    exact ⟨le_refl _, h0' i⟩
  · have hT : 0 < T := by
      rcases not_or.mp hc1 with ⟨_, h⟩
      exact lt_of_not_le h
    have hnbb : 0 ≤ T * (2 / 10) := by positivity
    have hA_le : ∀ i, usageAt (phaseAOut apps dc T valid).apps i ≤ usageAt apps i :=
      fun i => foldA_usage_le _ _ _ (othListOf apps valid) ⟨apps, dc, []⟩ i
    have hA_nn : ∀ i, 0 ≤ usageAt (phaseAOut apps dc T valid).apps i :=
      fun i => foldA_usage_nonneg _ _ _ (tcpmOthers_nonneg apps dc valid) hnbb
        (othListOf apps valid) ⟨apps, dc, []⟩ i (h0' i)
    rw [phaseBCall] at hout
    split_ifs at hout with hb1 hb2
    · intro i
      rw [← Option.some_inj.mp hout]
      exact ⟨hA_le i, hA_nn i⟩
    · intro i
      rw [← Option.some_inj.mp hout]
      exact ⟨hA_le i, hA_nn i⟩
    · intro i
      exact ⟨le_trans (loop_usage_le _ _ _ fuel _ out hout i) (hA_le i),
        loop_usage_nonneg _ _ _ fuel _ out hout i (hA_nn i)⟩

/-- C1 witness: the amended bounds on a skipped pass (zero threshold). -/
theorem C1_amended_witness :
    usageAt (⟨[⟨"Heater", 50, 100⟩], [1], []⟩ : BState).apps 0 ≤
        usageAt [⟨"Heater", 50, 100⟩] 0 ∧
      0 ≤ usageAt (⟨[⟨"Heater", 50, 100⟩], [1], []⟩ : BState).apps 0 :=
  C1_amended 1 [⟨"Heater", 50, 100⟩] [1] 0 [0] ⟨[⟨"Heater", 50, 100⟩], [1], []⟩
    (by intro a ha; rcases List.mem_singleton.mp ha with rfl; norm_num)
    (by rw [balance_appliances, if_pos (Or.inr (le_refl (0 : ℚ)))]) 0

/-- C2 (corrected), counterexample: on the daily-cost vector `[1]` the
lastestProduct `calculate_monthly_bill` returns a total of 3, not the
claimed `1 * 30 = 30` — the function divides the 30-day total by 10. -/
theorem C2_counterexample :
    (calculate_monthly_bill [1]).1 = 3 ∧ ((3 : ℚ) ≠ 1 * 30) := by
  constructor
  · norm_num [calculate_monthly_bill, sumQ]
  · norm_num

/-- C2 (corrected), amended: lastestProduct's `calculate_monthly_bill`
returns per-appliance monthly costs `daily_cost_i * 30 / 10 = 3 *
daily_cost_i` and total `3 * Σ daily_cost_i` (this divided value is what
the threshold comparison at appliance_balancer.py line 43 consumes),
while application's `calculate_monthly_bill` returns the bare sum of
daily costs with an empty adjustments list, never multiplying by 30. -/
theorem C2_amended (dc : List ℚ) :
    (calculate_monthly_bill dc).1 = 3 * sumQ dc ∧
      (calculate_monthly_bill dc).2 = dc.map (fun d => 3 * d) ∧
      calculate_monthly_bill_app dc = (sumQ dc, []) :=
  ⟨calculate_monthly_bill_fst dc, calculate_monthly_bill_snd dc, rfl⟩

/-- C2 witness: the amended characterization evaluated at `[2]`. -/
theorem C2_amended_witness :
    (calculate_monthly_bill [2]).1 = 3 * sumQ [2] ∧
      (calculate_monthly_bill [2]).2 = ([2] : List ℚ).map (fun d => 3 * d) ∧
      calculate_monthly_bill_app [2] = (sumQ [2], []) :=
  C2_amended [2]

/-- C3 (corrected), counterexample: "Washing Machine" is one of the
claim's excluded categories, yet `apply_threshold` includes it in its
`high_cost_devices` adjustable set: a lone Washing Machine with 2 usage
hours over a threshold of 60 has its adjusted usage cut to 1 hour, so it
is not bit-identical across the pass. -/
theorem C3_counterexample :
    (["Refrigerator", "Washing Machine", "Smart Plug"].contains
        ("Washing Machine" : String)) = true ∧
      (apply_threshold (fun _ _ _ => 0) 3
          [⟨"Washing Machine", 500, 2, 120, 2, 500, 120, [], 0⟩] 60).map
        (fun l => (getL l 0).adjustedUsageHours) = some 1 ∧
      ((1 : ℚ) ≠ 2) := by
  refine ⟨by decide, ?_, by norm_num⟩
  have hord : fpSortedIdxs [⟨"Washing Machine", 500, 2, 120, 2, 500, 120, [], 0⟩] =
      [0] := by decide
  have hcph : fpSetCph [⟨"Washing Machine", 500, 2, 120, 2, 500, 120, [], 0⟩] =
      [⟨"Washing Machine", 500, 2, 120, 2, 500, 120, [], 2⟩] := by
    norm_num [fpSetCph]
  have hstep : fpUsageStep (fun _ _ _ => 0) 60 [0]
      [⟨"Washing Machine", 500, 2, 120, 2, 500, 120, [], 2⟩] =
      [⟨"Washing Machine", 500, 2, 120, 1, 500, 0, [(false, 50, 1)], 2⟩] := by
    norm_num [fpUsageStep, fpUsageBody, fpTotalCost, fpTcph, sumQ, getL, setL,
      highCostTypes, List.filter]
  have hloop : fpUsageLoop (fun _ _ _ => 0) 60 [0] 3
      [⟨"Washing Machine", 500, 2, 120, 2, 500, 120, [], 2⟩] =
      some [⟨"Washing Machine", 500, 2, 120, 1, 500, 0, [(false, 50, 1)], 2⟩] := by
    show fpUsageLoop (fun _ _ _ => 0) 60 [0] (2 + 1)
      [⟨"Washing Machine", 500, 2, 120, 2, 500, 120, [], 2⟩] = _
    rw [fpUsageLoop, if_neg (by norm_num [fpTotalCost, sumQ]),
      if_neg (by norm_num [fpTcph, sumQ, getL, List.filter, highCostTypes]), hstep]
    show fpUsageLoop (fun _ _ _ => 0) 60 [0] (1 + 1)
      [⟨"Washing Machine", 500, 2, 120, 1, 500, 0, [(false, 50, 1)], 2⟩] = _
    rw [fpUsageLoop, if_pos (by norm_num [fpTotalCost, sumQ])]
  rw [apply_threshold, if_neg (by norm_num),
    if_neg (by norm_num [fpTotalCost, sumQ]), hord, hcph, hloop]
  norm_num [fpTotalCost, sumQ, getL]

/-- C3 (corrected), amended: in `balance_appliances`, Refrigerator,
Washing Machine and Smart Plug appliances are bit-identical before and
after the pass and receive no adjustment record; in finalProduct's
`apply_threshold`, Washing Machine belongs to the adjustable
`high_cost_devices` set and can be modified — only appliances outside
that set (Refrigerator and Smart Plug among them) keep their usage,
power, cost and action fields unchanged, while the `cost_per_hour`
scratch field is rewritten for every appliance. -/
theorem C3_amended :
    (∀ (fuel : ℕ) (apps : List Appliance) (dc : List ℚ) (T : ℚ) (valid : List ℕ)
      (out : BState) (i : ℕ), balance_appliances fuel apps dc T valid = some out →
        isExcluded (getL apps i) = true →
        getL out.apps i = getL apps i ∧ lookupAdj out.adj i = none) ∧
    (∀ (pc : String → ℚ → ℚ → ℚ) (fuel : ℕ) (apps : List FPAppliance) (threshold : ℚ)
      (out : List FPAppliance) (i : ℕ), apply_threshold pc fuel apps threshold = some out →
        highCostTypes.contains (getL apps i).deviceType = false →
        fpFieldsEq (getL apps i) (getL out i)) := by
  constructor
  · intro fuel apps dc T valid out i hout hexc
    rw [balance_appliances] at hout
    split_ifs at hout with hc1 hc2
    · rw [← Option.some_inj.mp hout]
      exact ⟨rfl, rfl⟩
    · rw [← Option.some_inj.mp hout]
      exact ⟨rfl, rfl⟩
    · have hothne : ∀ p ∈ othListOf apps valid, p.2 ≠ i := by
        intro p hp he
        have hf := (List.mem_filter.mp hp).2
        rw [he, hexc] at hf
        simp at hf
      have hbalne : ∀ p ∈ balListOf apps valid, p.2 ≠ i := by
        intro p hp he
        have hf := (List.mem_filter.mp hp).2
        rw [he, hexc] at hf
        simp at hf
      have hAg : getL (phaseAOut apps dc T valid).apps i = getL apps i :=
        foldA_getL_frame _ _ _ (othListOf apps valid) ⟨apps, dc, []⟩ i hothne
      have hAa : lookupAdj (phaseAOut apps dc T valid).adj i = none :=
        foldA_adj_frame _ _ _ (othListOf apps valid) ⟨apps, dc, []⟩ i hothne
      have hbalnm : i ∉ (balListOf apps valid).map Prod.snd := by
        intro hm
        obtain ⟨p, hp, he⟩ := List.mem_map.mp hm
        exact hbalne p hp he
      rw [phaseBCall] at hout
      split_ifs at hout with hb1 hb2
      · rw [← Option.some_inj.mp hout]
        exact ⟨hAg, hAa⟩
      · rw [← Option.some_inj.mp hout]
        exact ⟨hAg, hAa⟩
      · exact ⟨by rw [loop_getL_not_mem _ _ _ fuel _ out hout i hbalnm, hAg],
          by rw [loop_adj_not_mem _ _ _ fuel _ out hout i hbalnm, hAa]⟩
  · intro pc fuel apps threshold out i hout hc
    rw [apply_threshold] at hout
    split_ifs at hout with hc1 hc2
    · rw [← Option.some_inj.mp hout]
      exact ⟨rfl, rfl, rfl, rfl, rfl⟩
    · rw [← Option.some_inj.mp hout]
      exact ⟨rfl, rfl, rfl, rfl, rfl⟩
    · rcases hres : fpUsageLoop pc threshold (fpSortedIdxs apps) fuel (fpSetCph apps)
        with _ | apps2
      · rw [hres] at hout
        exact absurd hout (by simp)
      · rw [hres] at hout
        dsimp only at hout
        have hset := fpSetCph_fieldsEq apps i
        have hcs : highCostTypes.contains (getL (fpSetCph apps) i).deviceType = false := by
          rw [hset.1]; exact hc
        have hloopf : getL apps2 i = getL (fpSetCph apps) i :=
          fpUsageLoop_frame pc threshold (fpSortedIdxs apps) fuel _ apps2 hres i hcs
        have hc3 : highCostTypes.contains (getL apps2 i).deviceType = false := by
          rw [hloopf]; exact hcs
        split_ifs at hout with hp1 hp2
        · have hpow : getL (fpPowerStep pc threshold (fpSortedIdxs apps) apps2) i =
              getL apps2 i :=
            fpPowerFold_frame pc (fpTotalCost apps2 - threshold)
              (fpTcpw apps2 (fpSortedIdxs apps)) (fpSortedIdxs apps) apps2 i hc3
          rw [← Option.some_inj.mp hout, hpow, hloopf]
          exact hset
        · rw [← Option.some_inj.mp hout, hloopf]
          exact hset
        · rw [← Option.some_inj.mp hout, hloopf]
          exact hset

/-- C3 witness: the amended frame facts on concrete skipped passes (zero
threshold) for a Refrigerator in each variant. -/
theorem C3_amended_witness :
    (getL (⟨[⟨"Refrigerator", 150, 10⟩], [1], []⟩ : BState).apps 0 =
        getL [⟨"Refrigerator", 150, 10⟩] 0 ∧
      lookupAdj (⟨[⟨"Refrigerator", 150, 10⟩], [1], []⟩ : BState).adj 0 = none) ∧
      fpFieldsEq (getL [⟨"Refrigerator", 150, 24, 50, 24, 150, 50, [], 0⟩] 0)
        (getL [⟨"Refrigerator", 150, 24, 50, 24, 150, 50, [], 0⟩] 0) := by
  constructor
  · exact C3_amended.1 1 [⟨"Refrigerator", 150, 10⟩] [1] 0 [0]
      ⟨[⟨"Refrigerator", 150, 10⟩], [1], []⟩ 0
      (by rw [balance_appliances, if_pos (Or.inr (le_refl (0 : ℚ)))])
      (by decide)
  · exact C3_amended.2 (fun _ _ _ => 0) 1
      [⟨"Refrigerator", 150, 24, 50, 24, 150, 50, [], 0⟩] 0
      [⟨"Refrigerator", 150, 24, 50, 24, 150, 50, [], 0⟩] 0
      (by rw [apply_threshold, if_pos (le_refl (0 : ℚ))])
      (by decide)

/-- C6 (confirmed): when the threshold is non-positive or the initial
monthly bill (as `calculate_monthly_bill` reports it) is already at or
below the threshold, `balance_appliances` returns the appliances and
daily costs unchanged with an empty adjustments map. -/
theorem C6_no_adjustment_paths (fuel : ℕ) (apps : List Appliance) (dc : List ℚ)
    (T : ℚ) (valid : List ℕ)
    (h : T ≤ 0 ∨ (calculate_monthly_bill dc).1 ≤ T) :
    balance_appliances fuel apps dc T valid = some ⟨apps, dc, []⟩ := by
  rw [balance_appliances, if_pos (Or.symm h)]

/-- C6 witness: a zero threshold skips balancing. -/
theorem C6_no_adjustment_paths_witness :
    balance_appliances 1 [⟨"Heater", 50, 100⟩] [1] 0 [0] =
      some ⟨[⟨"Heater", 50, 100⟩], [1], []⟩ :=
  C6_no_adjustment_paths 1 [⟨"Heater", 50, 100⟩] [1] 0 [0] (Or.inl le_rfl)

/-- C5 (confirmed): with a positive threshold, an initial bill over the
threshold, and `threshold - 0.2*threshold - excluded_monthly_cost ≤ 0`,
`balance_appliances` returns every appliance unchanged with an empty
adjustments map (lines 67-78). -/
theorem C5_budget_infeasible (fuel : ℕ) (apps : List Appliance) (dc : List ℚ)
    (T : ℚ) (valid : List ℕ)
    (hT : 0 < T) (hover : T < (calculate_monthly_bill dc).1)
    (hbudget : T - T * (2 / 10) -
      sumQ ((excListOf apps valid).map (fun p => dcAt dc p.1)) * 30 ≤ 0) :
    balance_appliances fuel apps dc T valid = some ⟨apps, dc, []⟩ := by
  rw [balance_appliances,
    if_neg (by push_neg; exact ⟨hover, hT⟩), if_pos hbudget]

/-- C5 witness: a lone Refrigerator whose monthly cost alone exceeds the
threshold leaves the input untouched. -/
theorem C5_budget_infeasible_witness :
    balance_appliances 1 [⟨"Refrigerator", 150, 10⟩] [1] 2 [0] =
      some ⟨[⟨"Refrigerator", 150, 10⟩], [1], []⟩ := by
  refine C5_budget_infeasible 1 _ _ 2 _ (by norm_num) ?_ ?_
  · norm_num [calculate_monthly_bill, sumQ]
  · norm_num [excListOf, isExcluded, excludedTypes, List.enum, List.enumFrom,
      dcAt, getL, sumQ]

/-- C4 (confirmed): from any entry state, with the cost-per-minute cache
computed as at lines 137-144, the Phase-B while loop of
`balance_appliances` exits after finitely many iterations — fuel
`posCount + 1` suffices — in a state satisfying either
`total_monthly_bill ≤ max_monthly_bill` or `total_cost_per_minute ≤ 0`.
The index lists carry the well-formedness Python indexing presumes:
distinct positions and distinct original indices. -/
theorem C4_phaseB_terminates (T : ℚ) (apps : List Appliance) (dc : List ℚ)
    (adj0 : List (ℕ × AdjRec)) (bal : List (ℕ × ℕ))
    (h1 : (bal.map Prod.fst).Nodup) (h2 : (bal.map Prod.snd).Nodup) :
    ∃ (n : ℕ) (s2 : BState),
      phaseBLoop T bal (cpmBalAt apps dc) n ⟨apps, dc, adj0⟩ = some s2 ∧
        (totalBill30 s2.dc ≤ T ∨ totalCpm bal (cpmBalAt apps dc) s2.apps ≤ 0) := by
  obtain ⟨s2, hs2⟩ := loop_term T bal (cpmBalAt apps dc) h1 h2
    (posCount bal apps) ⟨apps, dc, adj0⟩ (cpmBal_inv apps dc adj0 bal) (le_refl _)
  exact ⟨posCount bal apps + 1, s2, hs2, loop_exit_cond T bal (cpmBalAt apps dc) _ _ s2 hs2⟩

/-- C4 witness: termination on a single over-threshold Heater. -/
theorem C4_phaseB_terminates_witness :
    ∃ (n : ℕ) (s2 : BState),
      phaseBLoop 1 [(0, 0)] (cpmBalAt [⟨"Heater", 50, 100⟩] [1]) n
          ⟨[⟨"Heater", 50, 100⟩], [1], []⟩ = some s2 ∧
        (totalBill30 s2.dc ≤ 1 ∨
          totalCpm [(0, 0)] (cpmBalAt [⟨"Heater", 50, 100⟩] [1]) s2.apps ≤ 0) :=
  C4_phaseB_terminates 1 [⟨"Heater", 50, 100⟩] [1] [] [(0, 0)]
    (by simp) (by simp)

/-- C7 (confirmed): across each iteration of the Phase-B loop (entered
with the cost-per-minute cache of lines 137-144), the total predicted
monthly bill `Σ daily_costs * 30` never increases. -/
theorem C7_phaseB_bill_monotone (T : ℚ) (apps : List Appliance) (dc : List ℚ)
    (adj0 : List (ℕ × AdjRec)) (bal : List (ℕ × ℕ)) (k : ℕ)
    (h1 : (bal.map Prod.fst).Nodup) (h2 : (bal.map Prod.snd).Nodup) :
    totalBill30 (phaseBRun T bal (cpmBalAt apps dc) (k + 1) ⟨apps, dc, adj0⟩).dc ≤
      totalBill30 (phaseBRun T bal (cpmBalAt apps dc) k ⟨apps, dc, adj0⟩).dc := by
  rw [run_guard_comm]
  exact guard_total_le T bal (cpmBalAt apps dc) _ h1 h2
    (run_inv T bal (cpmBalAt apps dc) h1 h2 k _ (cpmBal_inv apps dc adj0 bal))

/-- C7 witness: the first iteration on a single over-threshold Heater. -/
theorem C7_phaseB_bill_monotone_witness :
    totalBill30 (phaseBRun 1 [(0, 0)] (cpmBalAt [⟨"Heater", 50, 100⟩] [1]) 1
        ⟨[⟨"Heater", 50, 100⟩], [1], []⟩).dc ≤
      totalBill30 (phaseBRun 1 [(0, 0)] (cpmBalAt [⟨"Heater", 50, 100⟩] [1]) 0
        ⟨[⟨"Heater", 50, 100⟩], [1], []⟩).dc :=
  C7_phaseB_bill_monotone 1 [⟨"Heater", 50, 100⟩] [1] [] [(0, 0)] 0
    (by simp) (by simp)

/-- C10 (confirmed): at the start of every Phase-B iteration, each
balancing pair whose usage was positive at loop entry and is still
positive satisfies `daily_costs[idx] = cost_per_minute[idx] *
usage_minutes`: the cache taken at lines 137-144 stays exact because
each adjustment rescales cost and usage by the same factor. -/
theorem C10_phaseB_cache_exact (T : ℚ) (apps : List Appliance) (dc : List ℚ)
    (adj0 : List (ℕ × AdjRec)) (bal : List (ℕ × ℕ)) (k : ℕ) (p : ℕ × ℕ)
    (h1 : (bal.map Prod.fst).Nodup) (h2 : (bal.map Prod.snd).Nodup)
    (hp : p ∈ bal) (hent : 0 < usageAt apps p.2)
    (hpos : 0 < usageAt (phaseBRun T bal (cpmBalAt apps dc) k ⟨apps, dc, adj0⟩).apps p.2) :
    dcAt (phaseBRun T bal (cpmBalAt apps dc) k ⟨apps, dc, adj0⟩).dc p.1 =
      cpmBalAt apps dc p *
        usageAt (phaseBRun T bal (cpmBalAt apps dc) k ⟨apps, dc, adj0⟩).apps p.2 :=
  run_inv T bal (cpmBalAt apps dc) h1 h2 k ⟨apps, dc, adj0⟩
    (cpmBal_inv apps dc adj0 bal) p hp hpos

/-- C10 witness: the invariant instantiated at iteration 0 of a
below-threshold Heater state. -/
theorem C10_phaseB_cache_exact_witness :
    dcAt (phaseBRun 100 [(0, 0)] (cpmBalAt [⟨"Heater", 1, 10⟩] [1]) 0
        ⟨[⟨"Heater", 1, 10⟩], [1], []⟩).dc 0 =
      cpmBalAt [⟨"Heater", 1, 10⟩] [1] (0, 0) *
        usageAt (phaseBRun 100 [(0, 0)] (cpmBalAt [⟨"Heater", 1, 10⟩] [1]) 0
          ⟨[⟨"Heater", 1, 10⟩], [1], []⟩).apps 0 :=
  C10_phaseB_cache_exact 100 [⟨"Heater", 1, 10⟩] [1] [] [(0, 0)] 0 (0, 0)
    (by simp) (by simp) (by simp)
    (by norm_num [usageAt, getL])
    (by norm_num [phaseBRun, usageAt, getL])

/-- C8 (confirmed): on the adjustment path of
`adjust_usage_for_threshold` (positive threshold, initial bill over it)
with all usages and daily costs positive and well-formed index lists,
one uniform scaling applies: with the single reduction factor
`(threshold / 30) / Σ daily_costs`, each appliance's new usage is
`max(rf * usage, 0.5 * usage)`; and since the entry compares the
divided-by-10 bill against the threshold, the factor is below 0.5, so
every appliance ends at exactly half its original usage. -/
theorem C8_adjust_uniform_half (apps : List Appliance) (dc : List ℚ) (T : ℚ)
    (valid : List ℕ)
    (hlen : dc.length = valid.length) (hnd : valid.Nodup)
    (hu : ∀ o ∈ valid, 0 < usageAt apps o) (hd : ∀ d ∈ dc, 0 < d)
    (hT : 0 < T) (hover : T < (calculate_monthly_bill dc).1) :
    reductionFactor dc T < 1 / 2 ∧
      ∀ o ∈ valid, usageAt (adjust_usage_for_threshold apps dc T valid).apps o =
        usageAt apps o * (1 / 2) := by
  have hover3 : T < 3 * sumQ dc := by
    rw [← calculate_monthly_bill_fst dc]; exact hover
  have hS : 0 < sumQ dc := by linarith
  have hrf : reductionFactor dc T = T / 30 / sumQ dc := by
    rw [reductionFactor, if_pos hS]
  have hrf2 : reductionFactor dc T < 1 / 2 := by
    rw [hrf, div_div, div_lt_iff (by positivity)]
    linarith
  refine ⟨hrf2, ?_⟩
  rw [adjust_usage_for_threshold, if_neg (by push_neg; exact ⟨hover, hT⟩)]
  intro o ho
  have hvalid_eq : ((dc.zip valid).enum.map (fun q => q.2.2)) = valid := by
    rw [List.enum, enumFrom_map_sndsnd, zip_map_snd dc valid hlen]
  have hnd2 : ((dc.zip valid).enum.map (fun q => q.2.2)).Nodup := by
    rw [hvalid_eq]; exact hnd
  have ho2 : o ∈ (dc.zip valid).enum.map (fun q => q.2.2) := by
    rw [hvalid_eq]; exact ho
  obtain ⟨q, hq, hqo⟩ := List.mem_map.mp ho2
  have hcond : ∀ r ∈ (dc.zip valid).enum, 0 < usageAt apps r.2.2 ∧
      0 < cpmAdjAt apps r ∧
      r.2.1 * reductionFactor dc T / cpmAdjAt apps r ≤ usageAt apps r.2.2 * (1 / 2) := by
    intro r hr
    have hrz : r.2 ∈ dc.zip valid := mem_enumFrom_snd 0 _ r (by rw [← List.enum]; exact hr)
    have hrd : r.2.1 ∈ dc := mem_zip_left dc valid r.2 hrz
    have hrv : r.2.2 ∈ valid := mem_zip_right dc valid r.2 hrz
    have hu0 := hu _ hrv
    have hd0 := hd _ hrd
    have hcp : cpmAdjAt apps r = r.2.1 / usageAt apps r.2.2 := by
      rw [cpmAdjAt, if_pos hu0]
    refine ⟨hu0, by rw [hcp]; positivity, ?_⟩
    rw [hcp]
    have heq : r.2.1 * reductionFactor dc T / (r.2.1 / usageAt apps r.2.2) =
        reductionFactor dc T * usageAt apps r.2.2 := by
      rw [div_div_eq_mul_div, mul_comm r.2.1 (reductionFactor dc T), mul_assoc,
        mul_comm r.2.1 (usageAt apps r.2.2), ← mul_assoc, mul_div_assoc,
        div_self (ne_of_gt hd0), mul_one]
    rw [heq]
    nlinarith [mul_lt_mul_of_pos_right hrf2 hu0]
  have hhalf := adjFold_half (reductionFactor dc T) (cpmAdjAt apps)
    ((dc.zip valid).enum) ⟨apps, dc, []⟩ hnd2 hcond q hq
  rw [← hqo]
  exact hhalf

/-- C8 witness: a Heater at 100 minutes and daily cost 2 against
threshold 1 halves to 50 minutes. -/
theorem C8_adjust_uniform_half_witness :
    reductionFactor [2] 1 < 1 / 2 ∧
      ∀ o ∈ [0], usageAt (adjust_usage_for_threshold [⟨"Heater", 60, 100⟩] [2] 1 [0]).apps o =
        usageAt [⟨"Heater", 60, 100⟩] o * (1 / 2) :=
  C8_adjust_uniform_half [⟨"Heater", 60, 100⟩] [2] 1 [0] rfl (by simp)
    (by intro o ho; rcases List.mem_singleton.mp ho with rfl; norm_num [usageAt, getL])
    (by intro d hd; rcases List.mem_singleton.mp hd with rfl; norm_num)
    (by norm_num)
    (by norm_num [calculate_monthly_bill, sumQ])

/-- C9 (confirmed): `appliances.copy()` at line 35 is shallow, so the
returned list holds the very same appliance dictionaries as the caller's
list, every usage write is visible through it, and `daily_costs` is
rescaled in place — the embedding threads one shared store for both
views.  The observable consequence proved here: the "original" usage
read at line 168 goes through the same dictionary and returns the
current value.  On two Heaters where the first is adjusted in two
consecutive Phase-B iterations, the recorded original-usage figure of
the second adjustment is the already-reduced 946000/1001 minutes
(946000/60060 hours), not the pre-call 1000 minutes; the deep-copy
contrast semantics `balance_appliances_snapshot`, which follows the
spec's working-copy reading, records 1000/60 hours instead. -/
theorem C9_shallow_copy_aliasing :
    ((balance_appliances 5 [⟨"Heater", 100, 1000⟩, ⟨"Heater", 100, 1⟩]
        [1, 1] 5 [0, 1]).map
      (fun s => (lookupAdj s.adj 0).map AdjRec.originalUsageHours)) =
        some (some (946000 / 60060)) ∧
      ((balance_appliances_snapshot 5 [⟨"Heater", 100, 1000⟩, ⟨"Heater", 100, 1⟩]
          [1, 1] 5 [0, 1]).map
        (fun s => (lookupAdj s.adj 0).map AdjRec.originalUsageHours)) =
          some (some (1000 / 60)) ∧
      ((946000 / 60060 : ℚ) ≠ 1000 / 60) ∧
      ((balance_appliances 5 [⟨"Heater", 100, 1000⟩, ⟨"Heater", 100, 1⟩]
          [1, 1] 5 [0, 1]).map (fun s => usageAt s.apps 0)) = some 0 := by
  have hexc : excListOf [⟨"Heater", 100, 1000⟩, ⟨"Heater", 100, 1⟩] [0, 1] = [] := by
    decide
  have hoth : othListOf [⟨"Heater", 100, 1000⟩, ⟨"Heater", 100, 1⟩] [0, 1] = [] := by
    decide
  have hbal : balListOf [⟨"Heater", 100, 1000⟩, ⟨"Heater", 100, 1⟩] [0, 1] =
      [(0, 0), (1, 1)] := by decide
  have hA : phaseAOut [⟨"Heater", 100, 1000⟩, ⟨"Heater", 100, 1⟩] [1, 1] 5 [0, 1] =
      ⟨[⟨"Heater", 100, 1000⟩, ⟨"Heater", 100, 1⟩], [1, 1], []⟩ := by
    rw [phaseAOut, hoth]; rfl
  have hiter1 : phaseBIter 5 [(0, 0), (1, 1)]
      (cpmBalAt [⟨"Heater", 100, 1000⟩, ⟨"Heater", 100, 1⟩] [1, 1])
      ⟨[⟨"Heater", 100, 1000⟩, ⟨"Heater", 100, 1⟩], [1, 1], []⟩ =
      ⟨[⟨"Heater", 100, 946000 / 1001⟩, ⟨"Heater", 100, 0⟩], [946 / 1001, 0],
        [(0, ⟨0, 946000 / 60060, 5500 / 1001, 1000 / 60⟩),
          (1, ⟨0, 0, 100, 1 / 60⟩)]⟩ := by
    norm_num [phaseBIter, phaseBInner, totalBill30, totalCpm, List.filter, usageAt,
      dcAt, getL, setL, setUsage, upsert, List.any, sumQ, cpmBalAt]
  have hiter2 : phaseBIter 5 [(0, 0), (1, 1)]
      (cpmBalAt [⟨"Heater", 100, 1000⟩, ⟨"Heater", 100, 1⟩] [1, 1])
      ⟨[⟨"Heater", 100, 946000 / 1001⟩, ⟨"Heater", 100, 0⟩], [946 / 1001, 0],
        [(0, ⟨0, 946000 / 60060, 5500 / 1001, 1000 / 60⟩),
          (1, ⟨0, 0, 100, 1 / 60⟩)]⟩ =
      ⟨[⟨"Heater", 100, 0⟩, ⟨"Heater", 100, 0⟩], [0, 0],
        [(0, ⟨0, 0, 100, 946000 / 60060⟩), (1, ⟨0, 0, 100, 1 / 60⟩)]⟩ := by
    norm_num [phaseBIter, phaseBInner, totalBill30, totalCpm, List.filter, usageAt,
      dcAt, getL, setL, setUsage, upsert, List.any, sumQ, cpmBalAt]
  have hloop : phaseBLoop 5 [(0, 0), (1, 1)]
      (cpmBalAt [⟨"Heater", 100, 1000⟩, ⟨"Heater", 100, 1⟩] [1, 1]) 5
      ⟨[⟨"Heater", 100, 1000⟩, ⟨"Heater", 100, 1⟩], [1, 1], []⟩ =
      some ⟨[⟨"Heater", 100, 0⟩, ⟨"Heater", 100, 0⟩], [0, 0],
        [(0, ⟨0, 0, 100, 946000 / 60060⟩), (1, ⟨0, 0, 100, 1 / 60⟩)]⟩ := by
    show phaseBLoop 5 [(0, 0), (1, 1)] _ (4 + 1) _ = _
    rw [phaseBLoop, if_neg (by norm_num [totalBill30, sumQ]),
      if_neg (by norm_num [totalCpm, List.filter, usageAt, getL, sumQ, cpmBalAt, dcAt]),
      hiter1]
    show phaseBLoop 5 [(0, 0), (1, 1)] _ (3 + 1) _ = _
    rw [phaseBLoop, if_neg (by norm_num [totalBill30, sumQ]),
      if_neg (by norm_num [totalCpm, List.filter, usageAt, getL, sumQ, cpmBalAt, dcAt]),
      hiter2]
    show phaseBLoop 5 [(0, 0), (1, 1)] _ (2 + 1) _ = _
    rw [phaseBLoop, if_pos (by norm_num [totalBill30, sumQ])]
  have hiterS1 : phaseBIterSnap [⟨"Heater", 100, 1000⟩, ⟨"Heater", 100, 1⟩] 5
      [(0, 0), (1, 1)]
      (cpmBalAt [⟨"Heater", 100, 1000⟩, ⟨"Heater", 100, 1⟩] [1, 1])
      ⟨[⟨"Heater", 100, 1000⟩, ⟨"Heater", 100, 1⟩], [1, 1], []⟩ =
      ⟨[⟨"Heater", 100, 946000 / 1001⟩, ⟨"Heater", 100, 0⟩], [946 / 1001, 0],
        [(0, ⟨0, 946000 / 60060, 5500 / 1001, 1000 / 60⟩),
          (1, ⟨0, 0, 100, 1 / 60⟩)]⟩ := by
    norm_num [phaseBIterSnap, phaseBInnerSnap, totalBill30, totalCpm, List.filter,
      usageAt, dcAt, getL, setL, setUsage, upsert, List.any, sumQ, cpmBalAt]
  have hiterS2 : phaseBIterSnap [⟨"Heater", 100, 1000⟩, ⟨"Heater", 100, 1⟩] 5
      [(0, 0), (1, 1)]
      (cpmBalAt [⟨"Heater", 100, 1000⟩, ⟨"Heater", 100, 1⟩] [1, 1])
      ⟨[⟨"Heater", 100, 946000 / 1001⟩, ⟨"Heater", 100, 0⟩], [946 / 1001, 0],
        [(0, ⟨0, 946000 / 60060, 5500 / 1001, 1000 / 60⟩),
          (1, ⟨0, 0, 100, 1 / 60⟩)]⟩ =
      ⟨[⟨"Heater", 100, 0⟩, ⟨"Heater", 100, 0⟩], [0, 0],
        [(0, ⟨0, 0, 94600 / 1001, 1000 / 60⟩), (1, ⟨0, 0, 100, 1 / 60⟩)]⟩ := by
    norm_num [phaseBIterSnap, phaseBInnerSnap, totalBill30, totalCpm, List.filter,
      usageAt, dcAt, getL, setL, setUsage, upsert, List.any, sumQ, cpmBalAt]
  have hloopS : phaseBLoopSnap [⟨"Heater", 100, 1000⟩, ⟨"Heater", 100, 1⟩] 5
      [(0, 0), (1, 1)]
      (cpmBalAt [⟨"Heater", 100, 1000⟩, ⟨"Heater", 100, 1⟩] [1, 1]) 5
      ⟨[⟨"Heater", 100, 1000⟩, ⟨"Heater", 100, 1⟩], [1, 1], []⟩ =
      some ⟨[⟨"Heater", 100, 0⟩, ⟨"Heater", 100, 0⟩], [0, 0],
        [(0, ⟨0, 0, 94600 / 1001, 1000 / 60⟩), (1, ⟨0, 0, 100, 1 / 60⟩)]⟩ := by
    show phaseBLoopSnap _ 5 [(0, 0), (1, 1)] _ (4 + 1) _ = _
    rw [phaseBLoopSnap, if_neg (by norm_num [totalBill30, sumQ]),
      if_neg (by norm_num [totalCpm, List.filter, usageAt, getL, sumQ, cpmBalAt, dcAt]),
      hiterS1]
    show phaseBLoopSnap _ 5 [(0, 0), (1, 1)] _ (3 + 1) _ = _
    rw [phaseBLoopSnap, if_neg (by norm_num [totalBill30, sumQ]),
      if_neg (by norm_num [totalCpm, List.filter, usageAt, getL, sumQ, cpmBalAt, dcAt]),
      hiterS2]
    show phaseBLoopSnap _ 5 [(0, 0), (1, 1)] _ (2 + 1) _ = _
    rw [phaseBLoopSnap, if_pos (by norm_num [totalBill30, sumQ])]
  refine ⟨?_, ?_, by norm_num, ?_⟩
  · rw [balance_appliances,
      if_neg (by norm_num [calculate_monthly_bill, sumQ]),
      if_neg (by rw [hexc]; norm_num [sumQ]), hA, hbal, phaseBCall,
      if_neg (by norm_num [totalBill30, sumQ]), if_neg (by simp)]
    rw [show cpmBalAt
        ((⟨[⟨"Heater", 100, 1000⟩, ⟨"Heater", 100, 1⟩], [1, 1], []⟩ : BState).apps)
        ((⟨[⟨"Heater", 100, 1000⟩, ⟨"Heater", 100, 1⟩], [1, 1], []⟩ : BState).dc) =
        cpmBalAt [⟨"Heater", 100, 1000⟩, ⟨"Heater", 100, 1⟩] [1, 1] from rfl, hloop]
    norm_num [lookupAdj, List.find?]
  · rw [balance_appliances_snapshot,
      if_neg (by norm_num [calculate_monthly_bill, sumQ]),
      if_neg (by rw [hexc]; norm_num [sumQ]), hA, hbal, phaseBCallSnap,
      if_neg (by norm_num [totalBill30, sumQ]), if_neg (by simp)]
    rw [show cpmBalAt
        ((⟨[⟨"Heater", 100, 1000⟩, ⟨"Heater", 100, 1⟩], [1, 1], []⟩ : BState).apps)
        ((⟨[⟨"Heater", 100, 1000⟩, ⟨"Heater", 100, 1⟩], [1, 1], []⟩ : BState).dc) =
        cpmBalAt [⟨"Heater", 100, 1000⟩, ⟨"Heater", 100, 1⟩] [1, 1] from rfl, hloopS]
    norm_num [lookupAdj, List.find?]
  · rw [balance_appliances,
      if_neg (by norm_num [calculate_monthly_bill, sumQ]),
      if_neg (by rw [hexc]; norm_num [sumQ]), hA, hbal, phaseBCall,
      if_neg (by norm_num [totalBill30, sumQ]), if_neg (by simp)]
    rw [show cpmBalAt
        ((⟨[⟨"Heater", 100, 1000⟩, ⟨"Heater", 100, 1⟩], [1, 1], []⟩ : BState).apps)
        ((⟨[⟨"Heater", 100, 1000⟩, ⟨"Heater", 100, 1⟩], [1, 1], []⟩ : BState).dc) =
        cpmBalAt [⟨"Heater", 100, 1000⟩, ⟨"Heater", 100, 1⟩] [1, 1] from rfl, hloop]
    norm_num [usageAt, getL]

end Model
